import Mathlib

/-!
# FoodContract (src/chaincode/food_chaincode.go)

A shallow embedding of the Hyperledger Fabric chaincode `FoodContract` and the
properties of its five transactions `CreateAsset`, `DeleteAsset`, `UpdateStage`,
`ReadAsset` and `AssetExists`.

Modelling conventions.

* In the first embedding Go `string` values are Lean `String`s, that is, well-formed
  Unicode text.  A second embedding, in the namespace `Wire`, takes them as the byte
  strings they are; it carries the properties for which it matters that `json.Marshal`
  replaces the bytes of a string that are not valid UTF-8.
* Go `float64` is its IEEE-754 binary64 bit pattern (`Float64`).
* The chaincode stub is a key-value world state together with the failures its three
  primitives may report (`Stub`).  A failing primitive changes nothing.
* A stored byte string is represented by the way `encoding/json` reads it (`Bytes`):
  either it is not a JSON text, or it is a JSON value.  A number literal is represented
  by the `float64` that `strconv.ParseFloat` assigns to it, an infinity standing for a
  literal that is out of range.
* Every `error` carries the message of the source together with a tag (`ErrorKind`)
  naming the return site that produced it.
* Each call is one transaction: it runs on the stub left by the call before it, and what
  it hands back is its result together with the stub it leaves.
-/

namespace SafeFoodChain

/-! ## Data model -/

/-- Go `float64`, as an IEEE-754 binary64 bit pattern. -/
structure Float64 where
  bits : Fin (2 ^ 64)
deriving DecidableEq

/-- The eleven exponent bits of a `float64`. -/
def Float64.biasedExponent (f : Float64) : Nat :=
  (f.bits.val / 2 ^ 52) % 2 ^ 11

/-- A `float64` is finite when it is neither `NaN` nor an infinity
(`!math.IsInf(f, 0) && !math.IsNaN(f)`). -/
def Float64.isFinite (f : Float64) : Bool :=
  f.biasedExponent != 2047

/-- The zero value `0.0`. -/
def Float64.zero : Float64 := ⟨⟨0, by decide⟩⟩

/-- The struct `FoodAsset`: a food product in the supply chain. -/
structure FoodAsset where
  AssetID : String
  ProductType : String
  Quantity : Float64
  Unit : String
  Origin : String
  CurrentStage : String
  Owner : String
deriving DecidableEq

/-- Return sites of the contract, named after the error kinds of the specification.
`IdentityFailure` tags an error of `GetClientIdentity().GetID()`, `MarshalFailure` an
error of `json.Marshal`, `StoreFailure` an error of a stub primitive. -/
inductive ErrorKind where
  | AccessDenied
  | AlreadyExists
  | NotFound
  | Corrupt
  | StoreFailure
  | IdentityFailure
  | MarshalFailure
deriving DecidableEq, Repr

/-- A Go `error` value: the tag of its return site and its message. -/
structure Error where
  kind : ErrorKind
  msg : String
deriving DecidableEq, Repr

/-- Equality of results is decidable when equality of errors and of values is. -/
instance instDecidableEqExcept {ε α : Type} [DecidableEq ε] [DecidableEq α] :
    DecidableEq (Except ε α)
  | .ok a, .ok b =>
    if h : a = b then isTrue (by rw [h]) else isFalse (fun h' => h (Except.ok.inj h'))
  | .error a, .error b =>
    if h : a = b then isTrue (by rw [h]) else isFalse (fun h' => h (Except.error.inj h'))
  | .ok _, .error _ => isFalse (fun h => Except.noConfusion h)
  | .error _, .ok _ => isFalse (fun h => Except.noConfusion h)

/-! ## encoding/json, as far as `FoodAsset` uses it -/

/-- A JSON value.  `number f` is a number literal that `strconv.ParseFloat` reads as
`f`; an infinite `f` stands for a literal outside the `float64` range. -/
inductive JSON where
  | null
  | bool (b : Bool)
  | number (f : Float64)
  | string (s : String)
  | array (items : List JSON)
  | object (members : List (String × JSON))

/-- A stored byte string, by its reading as JSON: `malformed` when the bytes are not a
JSON text, `json v` when they are the text of `v`. -/
inductive Bytes where
  | malformed
  | json (v : JSON)

/-- Case folding of one rune of an object key, as far as it can reach the (ASCII)
field names of `FoodAsset`: ASCII letters fold to upper case, and so do the two
non-ASCII runes that Unicode simple folding maps onto ASCII letters. -/
def foldRune (c : Char) : Char :=
  if c.isLower then c.toUpper
  else if c = 'ſ' then 'S'
  else if c = 'K' then 'K'
  else c

/-- Folded form of an object key, under which `json.Unmarshal` looks up a field. -/
def foldName (key : String) : String :=
  String.mk (key.data.map foldRune)

/-- State of a running `json.Unmarshal`: the struct being filled and whether a type
error has been saved. -/
abbrev Decoding := FoodAsset × Bool

/-- Store a JSON value into a `string` field: `null` is skipped, a string is stored,
anything else saves an `UnmarshalTypeError`. -/
def storeString (set : FoodAsset → String → FoodAsset) (st : Decoding) (v : JSON) : Decoding :=
  match v with
  | .null => st
  | .string s => (set st.1 s, st.2)
  | _ => (st.1, true)

/-- Store a JSON value into a `float64` field: `null` is skipped, a number in range is
stored, anything else saves an `UnmarshalTypeError`. -/
def storeFloat (set : FoodAsset → Float64 → FoodAsset) (st : Decoding) (v : JSON) : Decoding :=
  match v with
  | .null => st
  | .number f => if f.isFinite then (set st.1 f, st.2) else (st.1, true)
  | _ => (st.1, true)

/-- Decode one member of a JSON object into the struct: the key selects a field by its
`json` tag, case-insensitively; members with an unknown key are skipped. -/
def unmarshalMember (st : Decoding) (m : String × JSON) : Decoding :=
  let name := foldName m.1
  if name = "ASSETID" then storeString (fun a s => { a with AssetID := s }) st m.2
  else if name = "PRODUCTTYPE" then storeString (fun a s => { a with ProductType := s }) st m.2
  else if name = "QUANTITY" then storeFloat (fun a f => { a with Quantity := f }) st m.2
  else if name = "UNIT" then storeString (fun a s => { a with Unit := s }) st m.2
  else if name = "ORIGIN" then storeString (fun a s => { a with Origin := s }) st m.2
  else if name = "CURRENTSTAGE" then storeString (fun a s => { a with CurrentStage := s }) st m.2
  else if name = "OWNER" then storeString (fun a s => { a with Owner := s }) st m.2
  else st

/-- The zero value of `FoodAsset` (`var asset FoodAsset`). -/
def FoodAsset.zero : FoodAsset :=
  { AssetID := "", ProductType := "", Quantity := Float64.zero, Unit := "", Origin := "",
    CurrentStage := "", Owner := "" }

/-- The error `json.Unmarshal` returns for bytes that are not a JSON text. -/
def syntaxError : Error := ⟨.Corrupt, "json: syntax error"⟩

/-- The error `json.Unmarshal` returns for a JSON value of the wrong type. -/
def unmarshalTypeError : Error := ⟨.Corrupt, "json: cannot unmarshal value into Go value"⟩

/-- The error `json.Marshal` returns for a `NaN` or infinite `float64`. -/
def unsupportedValueError : Error := ⟨.MarshalFailure, "json: unsupported value"⟩

/-- `json.Unmarshal(bytes, &asset)` on a zero `FoodAsset`: the members of an object are
decoded in order (a later duplicate overrides an earlier one), `null` leaves the struct
as it is, any other value is a type error. -/
def Unmarshal (bytes : Bytes) : Except Error FoodAsset :=
  match bytes with
  | .malformed => .error syntaxError
  | .json .null => .ok FoodAsset.zero
  | .json (.object members) =>
    let st := members.foldl unmarshalMember (FoodAsset.zero, false)
    if st.2 then .error unmarshalTypeError else .ok st.1
  | .json _ => .error unmarshalTypeError

/-- `json.Marshal(asset)`: an object with the seven tagged fields in declaration order;
fails on a `NaN` or infinite quantity. -/
def Marshal (asset : FoodAsset) : Except Error Bytes :=
  if asset.Quantity.isFinite then
    .ok (.json (.object
      [("assetId", .string asset.AssetID),
       ("productType", .string asset.ProductType),
       ("quantity", .number asset.Quantity),
       ("unit", .string asset.Unit),
       ("origin", .string asset.Origin),
       ("currentStage", .string asset.CurrentStage),
       ("owner", .string asset.Owner)]))
  else .error unsupportedValueError

/-! ## The substrate: state store and caller identity -/

/-- The chaincode stub: the world state, and for each primitive the failure (if any) it
reports on a given call. -/
structure Stub where
  state : String → Option Bytes
  getFault : String → Option String
  putFault : String → Bytes → Option String
  delFault : String → Option String

/-- `stub.GetState(key)`: the stored bytes, `none` for Go's `nil`. -/
def Stub.GetState (s : Stub) (key : String) : Except Error (Option Bytes) :=
  match s.getFault key with
  | some e => .error ⟨.StoreFailure, e⟩
  | none => .ok (s.state key)

/-- `stub.PutState(key, value)`. -/
def Stub.PutState (s : Stub) (key : String) (value : Bytes) : Except Error Unit × Stub :=
  match s.putFault key value with
  | some e => (.error ⟨.StoreFailure, e⟩, s)
  | none => (.ok (), { s with state := Function.update s.state key (some value) })

/-- `stub.DelState(key)`. -/
def Stub.DelState (s : Stub) (key : String) : Except Error Unit × Stub :=
  match s.delFault key with
  | some e => (.error ⟨.StoreFailure, e⟩, s)
  | none => (.ok (), { s with state := Function.update s.state key none })

/-- The transaction context `ctx`: the stub and the result of
`GetClientIdentity().GetID()` for the invoking party. -/
structure TransactionContext where
  stub : Stub
  clientIdentity : Except String String

/-- `ctx.GetClientIdentity().GetID()`. -/
def TransactionContext.GetID (ctx : TransactionContext) : Except Error String :=
  match ctx.clientIdentity with
  | .error e => .error ⟨.IdentityFailure, e⟩
  | .ok id => .ok id

/-! ## The contract -/

/-- `FoodContract.AssetExists`. -/
def AssetExists (ctx : TransactionContext) (assetID : String) : Except Error Bool :=
  match ctx.stub.GetState assetID with
  | .error err => .error err
  | .ok bytes => .ok bytes.isSome

/-- `FoodContract.ReadAsset`. -/
def ReadAsset (ctx : TransactionContext) (assetID : String) : Except Error FoodAsset :=
  match ctx.stub.GetState assetID with
  | .error err => .error err
  | .ok none => .error ⟨.NotFound, "asset " ++ assetID ++ " not found"⟩
  | .ok (some bytes) => Unmarshal bytes

/-- `FoodContract.CreateAsset`: the returned error and the stub after the call. -/
def CreateAsset (ctx : TransactionContext) (assetID productType : String)
    (quantity : Float64) (unit origin userRole : String) : Except Error Unit × Stub :=
  if userRole ≠ "producer" then
    (.error ⟨.AccessDenied, "Access Denied: only producers can create assets"⟩, ctx.stub)
  else
    match AssetExists ctx assetID with
    | .error err => (.error err, ctx.stub)
    | .ok true => (.error ⟨.AlreadyExists, "asset " ++ assetID ++ " already exists"⟩, ctx.stub)
    | .ok false =>
      match ctx.GetID with
      | .error err => (.error err, ctx.stub)
      | .ok clientID =>
        let asset : FoodAsset :=
          { AssetID := assetID, ProductType := productType, Quantity := quantity,
            Unit := unit, Origin := origin, CurrentStage := "Raccolto", Owner := clientID }
        match Marshal asset with
        | .error err => (.error err, ctx.stub)
        | .ok bytes => ctx.stub.PutState assetID bytes

/-- `FoodContract.DeleteAsset`: the returned error and the stub after the call. -/
def DeleteAsset (ctx : TransactionContext) (assetID userRole : String) :
    Except Error Unit × Stub :=
  if userRole ≠ "producer" then
    (.error ⟨.AccessDenied, "Access Denied: only producers can delete assets"⟩, ctx.stub)
  else
    match AssetExists ctx assetID with
    | .error err => (.error err, ctx.stub)
    | .ok false =>
      (.error ⟨.NotFound, "the asset " ++ assetID ++ " does not exist"⟩, ctx.stub)
    | .ok true => ctx.stub.DelState assetID

/-- `FoodContract.UpdateStage`: the returned error and the stub after the call. -/
def UpdateStage (ctx : TransactionContext) (assetID newStage userRole : String) :
    Except Error Unit × Stub :=
  if userRole ≠ "producer" ∧ userRole ≠ "logistics" then
    (.error ⟨.AccessDenied, "Access Denied"⟩, ctx.stub)
  else
    match ReadAsset ctx assetID with
    | .error err => (.error err, ctx.stub)
    | .ok asset =>
      match ctx.GetID with
      | .error err => (.error err, ctx.stub)
      | .ok clientID =>
        let asset := { asset with CurrentStage := newStage, Owner := clientID }
        match Marshal asset with
        | .error err => (.error err, ctx.stub)
        | .ok bytes => ctx.stub.PutState assetID bytes

/-! ## Invocation of the contract -/

/-- A transaction proposal: one of the five functions of the contract with its
arguments, in the positional order of the source. -/
inductive Call where
  | CreateAsset (assetID productType : String) (quantity : Float64)
      (unit origin userRole : String)
  | DeleteAsset (assetID userRole : String)
  | UpdateStage (assetID newStage userRole : String)
  | ReadAsset (assetID : String)
  | AssetExists (assetID : String)

/-- The asset identifier a call is addressed to. -/
def Call.assetID : Call → String
  | .CreateAsset assetID _ _ _ _ _ => assetID
  | .DeleteAsset assetID _ => assetID
  | .UpdateStage assetID _ _ => assetID
  | .ReadAsset assetID => assetID
  | .AssetExists assetID => assetID

/-- What a successful call hands back: nothing, a record, or a boolean. -/
inductive Response where
  | unit
  | asset (a : FoodAsset)
  | bool (b : Bool)
deriving DecidableEq

/-- Run one call in a transaction context: its result and the stub after it.  The two
queries go through `GetState` only and hand the stub back as it was. -/
def invoke (ctx : TransactionContext) : Call → Except Error Response × Stub
  | .CreateAsset assetID productType quantity unit origin userRole =>
    let r := CreateAsset ctx assetID productType quantity unit origin userRole
    (r.1.map fun _ => Response.unit, r.2)
  | .DeleteAsset assetID userRole =>
    let r := DeleteAsset ctx assetID userRole
    (r.1.map fun _ => Response.unit, r.2)
  | .UpdateStage assetID newStage userRole =>
    let r := UpdateStage ctx assetID newStage userRole
    (r.1.map fun _ => Response.unit, r.2)
  | .ReadAsset assetID => ((ReadAsset ctx assetID).map Response.asset, ctx.stub)
  | .AssetExists assetID => ((AssetExists ctx assetID).map Response.bool, ctx.stub)

/-! ## Liveness of a key, as the contract observes it -/

/-- The store answers a lookup of `assetID` with no value (Go's `nil`). -/
def Stub.Absent (s : Stub) (assetID : String) : Prop :=
  s.GetState assetID = .ok none

/-- The store answers a lookup of `assetID` with a value. -/
def Stub.Live (s : Stub) (assetID : String) : Prop :=
  ∃ bytes, s.GetState assetID = .ok (some bytes)

/-- The result is an error whose tag is `kind`. -/
def failsWith {α : Type} (result : Except Error α) (kind : ErrorKind) : Bool :=
  match result with
  | .error err => err.kind == kind
  | .ok _ => false

/-! ## Sample data -/

/-- A store that holds nothing and whose primitives never fail. -/
def emptyStub : Stub :=
  { state := fun _ => none, getFault := fun _ => none, putFault := fun _ _ => none,
    delFault := fun _ => none }

/-- The `float64` value `1.0`. -/
def one : Float64 := ⟨⟨0x3FF0000000000000, by decide⟩⟩

/-- The `float64` value `2.0`. -/
def two : Float64 := ⟨⟨0x4000000000000000, by decide⟩⟩

/-- A transaction context on stub `s` invoked by the party `caller`. -/
def asCaller (s : Stub) (caller : String) : TransactionContext :=
  { stub := s, clientIdentity := .ok caller }

/-- The stub left by a producer, `"alice"`, creating the asset `"a1"` in the empty store. -/
def stubWithApple : Stub :=
  (CreateAsset (asCaller emptyStub "alice") "a1" "apple" one "kg" "IT" "producer").2

/-- The record `"alice"` created under `"a1"`. -/
def apple : FoodAsset :=
  { AssetID := "a1", ProductType := "apple", Quantity := one, Unit := "kg", Origin := "IT",
    CurrentStage := "Raccolto", Owner := "alice" }

/-! ## Histories of calls -/

/-- One step of a history: the identity lookup of the invoking party, and its call. -/
abbrev Step := Except String String × Call

/-- Run a history of calls, each on the stub left by the one before it. -/
def run (s : Stub) : List Step → Stub
  | [] => s
  | step :: rest => run (invoke ⟨s, step.1⟩ step.2).2 rest

/-- The identity a step writes as owner of `assetID`: that of its caller when the step is
a successful `CreateAsset` or `UpdateStage` on `assetID`, none otherwise. -/
def ownerWritten (s : Stub) (step : Step) (assetID : String) : Option String :=
  match step.2 with
  | .CreateAsset id productType quantity unit origin userRole =>
    if id = assetID ∧
        (CreateAsset ⟨s, step.1⟩ id productType quantity unit origin userRole).1 = .ok () then
      step.1.toOption
    else none
  | .UpdateStage id newStage userRole =>
    if id = assetID ∧ (UpdateStage ⟨s, step.1⟩ id newStage userRole).1 = .ok () then
      step.1.toOption
    else none
  | _ => none

/-- The caller of the most recent successful `CreateAsset` or `UpdateStage` on `assetID`
in a history run from `s`; `earlier` is that caller for the calls before the history. -/
def lastOwner (assetID : String) (s : Stub) (earlier : Option String) :
    List Step → Option String
  | [] => earlier
  | step :: rest =>
    lastOwner assetID (invoke ⟨s, step.1⟩ step.2).2
      (match ownerWritten s step assetID with
        | some caller => some caller
        | none => earlier) rest

/-- The two queries of the contract. -/
def Call.isQuery : Call → Bool
  | .ReadAsset _ => true
  | .AssetExists _ => true
  | _ => false

/-! ## More sample data -/

/-- A quiet `NaN` of `float64`. -/
def nan : Float64 := ⟨⟨0x7FF8000000000000, by decide⟩⟩

/-- A store that holds `bytes` under `key` and nothing else, and whose primitives never
fail. -/
def stubHolding (key : String) (bytes : Bytes) : Stub :=
  { emptyStub with state := Function.update emptyStub.state key (some bytes) }

/-- The stored text of the empty JSON object. -/
def emptyObject : Bytes := .json (.object [])

/-- An empty store whose lookups all fail. -/
def unreachableStub : Stub :=
  { emptyStub with getFault := fun _ => some "peer unavailable" }

/-- The number of characters in the string members of a stored JSON object, a lower bound
for the length of its text. -/
def Bytes.textLength : Bytes → Nat
  | .json (.object members) =>
    (members.map fun m => match m.2 with
      | .string s => s.length
      | _ => 0).sum
  | _ => 0

/-- The stub `s` behind a size limit: a write whose value holds more than `limit`
characters of text is refused. -/
def withSizeLimit (s : Stub) (limit : Nat) : Stub :=
  { s with putFault := fun _ bytes =>
      if limit < bytes.textLength then some "value too large" else none }

/-- A history on the asset `"a1"`: created by `"alice"`, shipped by `"bob"`, then an
update by `"carol"` under the role `"customer"`, and a query by `"dave"`. -/
def sampleHistory : List Step :=
  [(.ok "alice", .CreateAsset "a1" "apple" one "kg" "IT" "producer"),
   (.ok "bob", .UpdateStage "a1" "Shipped" "logistics"),
   (.ok "carol", .UpdateStage "a1" "Sold" "customer"),
   (.ok "dave", .ReadAsset "a1")]

/-! ## Go strings as byte strings

The definitions above take a Go `string` to be well-formed text.  A Go `string` is a
sequence of bytes, and `json.Marshal` writes one that is not valid UTF-8 with every
offending byte replaced by U+FFFD.  The namespace `Wire` embeds the contract once more
with its string arguments, keys and fields as byte strings, for the properties on which
that replacement bears. -/

namespace Wire

/-- A byte. -/
abbrev Byte := Fin 256

/-- A Go `string`: a sequence of bytes. -/
abbrev GoString := List Byte

/-- The byte with value `n`. -/
def byte (n : Nat) : Byte := ⟨n % 256, Nat.mod_lt _ (by decide)⟩

/-- The rune `utf8.RuneError`, U+FFFD. -/
def runeError : Char := Char.ofNat 0xFFFD

/-- The UTF-8 encoding of a rune (`utf8.AppendRune`). -/
def encodeRune (c : Char) : GoString :=
  if c.toNat < 0x80 then [byte c.toNat]
  else if c.toNat < 0x800 then [byte (0xC0 + c.toNat / 64), byte (0x80 + c.toNat % 64)]
  else if c.toNat < 0x10000 then
    [byte (0xE0 + c.toNat / 4096), byte (0x80 + c.toNat / 64 % 64), byte (0x80 + c.toNat % 64)]
  else
    [byte (0xF0 + c.toNat / 262144), byte (0x80 + c.toNat / 4096 % 64),
     byte (0x80 + c.toNat / 64 % 64), byte (0x80 + c.toNat % 64)]

/-- The Go `string` holding the UTF-8 encoding of a text, as a string literal of the
source or a string decoded by `json.Unmarshal` does. -/
def utf8 (text : String) : GoString :=
  text.data.flatMap encodeRune

/-- A continuation byte of UTF-8, `0x80` to `0xBF`. -/
def continuation (b : Byte) : Bool :=
  0x80 ≤ b.val && b.val ≤ 0xBF

/-- The first rune of a byte string and its width in bytes (`utf8.DecodeRuneInString`):
`(runeError, 1)` when the string does not start with a valid encoding, which excludes
overlong forms, surrogates and values above U+10FFFF. -/
def decodeRune : GoString → Char × Nat
  | [] => (runeError, 0)
  | b0 :: rest =>
    if b0.val < 0x80 then (Char.ofNat b0.val, 1)
    else if 0xC2 ≤ b0.val ∧ b0.val ≤ 0xDF then
      match rest with
      | b1 :: _ =>
        if continuation b1 then (Char.ofNat ((b0.val - 0xC0) * 64 + (b1.val - 0x80)), 2)
        else (runeError, 1)
      | [] => (runeError, 1)
    else if 0xE0 ≤ b0.val ∧ b0.val ≤ 0xEF then
      match rest with
      | b1 :: b2 :: _ =>
        if (if b0.val = 0xE0 then 0xA0 else 0x80) ≤ b1.val ∧
            b1.val ≤ (if b0.val = 0xED then 0x9F else 0xBF) ∧ continuation b2 = true then
          (Char.ofNat ((b0.val - 0xE0) * 4096 + (b1.val - 0x80) * 64 + (b2.val - 0x80)), 3)
        else (runeError, 1)
      | _ => (runeError, 1)
    else if 0xF0 ≤ b0.val ∧ b0.val ≤ 0xF4 then
      match rest with
      | b1 :: b2 :: b3 :: _ =>
        if (if b0.val = 0xF0 then 0x90 else 0x80) ≤ b1.val ∧
            b1.val ≤ (if b0.val = 0xF4 then 0x8F else 0xBF) ∧ continuation b2 = true ∧
            continuation b3 = true then
          (Char.ofNat ((b0.val - 0xF0) * 262144 + (b1.val - 0x80) * 4096 +
            (b2.val - 0x80) * 64 + (b3.val - 0x80)), 4)
        else (runeError, 1)
      | _ => (runeError, 1)
    else (runeError, 1)

/-- The runes `json.Marshal` writes for a byte string, reading at most `fuel` of them:
rune after rune, a byte that starts no valid encoding giving U+FFFD. -/
def decodeRunes : Nat → GoString → List Char
  | 0, _ => []
  | _, [] => []
  | fuel + 1, b :: rest =>
    (decodeRune (b :: rest)).1 :: decodeRunes fuel ((b :: rest).drop (decodeRune (b :: rest)).2)

/-- The text `json.Marshal` writes for a Go `string`.  A rune takes at least one byte, so
the length of the string is fuel enough. -/
def textOf (s : GoString) : String :=
  String.mk (decodeRunes s.length s)

/-- A Go `string` after a round trip through JSON: every byte that is not part of a valid
encoding replaced by the encoding of U+FFFD (`strings.ToValidUTF8` with U+FFFD, byte by
byte). -/
def toValidUTF8 (s : GoString) : GoString :=
  utf8 (textOf s)

/-- Well-formed UTF-8: the encoding of some text. -/
def WellFormed (s : GoString) : Prop :=
  ∃ text : String, s = utf8 text

end Wire

namespace Wire

/-! ## The contract on byte strings -/

/-- The struct `FoodAsset`, its string fields as Go strings. -/
structure FoodAsset where
  AssetID : GoString
  ProductType : GoString
  Quantity : Float64
  Unit : GoString
  Origin : GoString
  CurrentStage : GoString
  Owner : GoString
deriving DecidableEq

/-- A Go `error` value: the tag of its return site and its message, a Go string. -/
structure Error where
  kind : ErrorKind
  msg : GoString
deriving DecidableEq

/-- The record as `json.Marshal` writes it: every string field as the text written for
it. -/
def FoodAsset.text (a : FoodAsset) : SafeFoodChain.FoodAsset :=
  { AssetID := textOf a.AssetID, ProductType := textOf a.ProductType, Quantity := a.Quantity,
    Unit := textOf a.Unit, Origin := textOf a.Origin, CurrentStage := textOf a.CurrentStage,
    Owner := textOf a.Owner }

/-- The struct `json.Unmarshal` fills from a decoded record: every string field holds the
UTF-8 encoding of the decoded text. -/
def FoodAsset.ofText (a : SafeFoodChain.FoodAsset) : FoodAsset :=
  { AssetID := utf8 a.AssetID, ProductType := utf8 a.ProductType, Quantity := a.Quantity,
    Unit := utf8 a.Unit, Origin := utf8 a.Origin, CurrentStage := utf8 a.CurrentStage,
    Owner := utf8 a.Owner }

/-- An error of `encoding/json`, its message as a Go string. -/
def Error.ofText (err : SafeFoodChain.Error) : Error :=
  { kind := err.kind, msg := utf8 err.msg }

/-- `json.Marshal(asset)`: the object of `SafeFoodChain.Marshal`, written from the text of
the fields. -/
def Marshal (asset : FoodAsset) : Except Error Bytes :=
  match SafeFoodChain.Marshal asset.text with
  | .error err => .error (Error.ofText err)
  | .ok bytes => .ok bytes

/-- `json.Unmarshal(bytes, &asset)`: the record of `SafeFoodChain.Unmarshal`, stored into
Go strings. -/
def Unmarshal (bytes : Bytes) : Except Error FoodAsset :=
  match SafeFoodChain.Unmarshal bytes with
  | .error err => .error (Error.ofText err)
  | .ok asset => .ok (FoodAsset.ofText asset)

/-- The chaincode stub, its keys Go strings: the world state, and for each primitive the
failure (if any) it reports on a given call. -/
structure Stub where
  state : GoString → Option Bytes
  getFault : GoString → Option GoString
  putFault : GoString → Bytes → Option GoString
  delFault : GoString → Option GoString

/-- `stub.GetState(key)`: the stored bytes, `none` for Go's `nil`. -/
def Stub.GetState (s : Stub) (key : GoString) : Except Error (Option Bytes) :=
  match s.getFault key with
  | some e => .error ⟨.StoreFailure, e⟩
  | none => .ok (s.state key)

/-- `stub.PutState(key, value)`. -/
def Stub.PutState (s : Stub) (key : GoString) (value : Bytes) : Except Error Unit × Stub :=
  match s.putFault key value with
  | some e => (.error ⟨.StoreFailure, e⟩, s)
  | none => (.ok (), { s with state := Function.update s.state key (some value) })

/-- `stub.DelState(key)`. -/
def Stub.DelState (s : Stub) (key : GoString) : Except Error Unit × Stub :=
  match s.delFault key with
  | some e => (.error ⟨.StoreFailure, e⟩, s)
  | none => (.ok (), { s with state := Function.update s.state key none })

/-- The transaction context `ctx`: the stub and the result of
`GetClientIdentity().GetID()` for the invoking party. -/
structure TransactionContext where
  stub : Stub
  clientIdentity : Except GoString GoString

/-- `ctx.GetClientIdentity().GetID()`. -/
def TransactionContext.GetID (ctx : TransactionContext) : Except Error GoString :=
  match ctx.clientIdentity with
  | .error e => .error ⟨.IdentityFailure, e⟩
  | .ok id => .ok id

/-- `FoodContract.AssetExists`. -/
def AssetExists (ctx : TransactionContext) (assetID : GoString) : Except Error Bool :=
  match ctx.stub.GetState assetID with
  | .error err => .error err
  | .ok bytes => .ok bytes.isSome

/-- `FoodContract.ReadAsset`. -/
def ReadAsset (ctx : TransactionContext) (assetID : GoString) : Except Error FoodAsset :=
  match ctx.stub.GetState assetID with
  | .error err => .error err
  | .ok none => .error ⟨.NotFound, utf8 "asset " ++ assetID ++ utf8 " not found"⟩
  | .ok (some bytes) => Unmarshal bytes

/-- `FoodContract.CreateAsset`: the returned error and the stub after the call. -/
def CreateAsset (ctx : TransactionContext) (assetID productType : GoString)
    (quantity : Float64) (unit origin userRole : GoString) : Except Error Unit × Stub :=
  if userRole ≠ utf8 "producer" then
    (.error ⟨.AccessDenied, utf8 "Access Denied: only producers can create assets"⟩, ctx.stub)
  else
    match AssetExists ctx assetID with
    | .error err => (.error err, ctx.stub)
    | .ok true =>
      (.error ⟨.AlreadyExists, utf8 "asset " ++ assetID ++ utf8 " already exists"⟩, ctx.stub)
    | .ok false =>
      match ctx.GetID with
      | .error err => (.error err, ctx.stub)
      | .ok clientID =>
        let asset : FoodAsset :=
          { AssetID := assetID, ProductType := productType, Quantity := quantity,
            Unit := unit, Origin := origin, CurrentStage := utf8 "Raccolto",
            Owner := clientID }
        match Marshal asset with
        | .error err => (.error err, ctx.stub)
        | .ok bytes => ctx.stub.PutState assetID bytes

/-- `FoodContract.DeleteAsset`: the returned error and the stub after the call. -/
def DeleteAsset (ctx : TransactionContext) (assetID userRole : GoString) :
    Except Error Unit × Stub :=
  if userRole ≠ utf8 "producer" then
    (.error ⟨.AccessDenied, utf8 "Access Denied: only producers can delete assets"⟩, ctx.stub)
  else
    match AssetExists ctx assetID with
    | .error err => (.error err, ctx.stub)
    | .ok false =>
      (.error ⟨.NotFound, utf8 "the asset " ++ assetID ++ utf8 " does not exist"⟩, ctx.stub)
    | .ok true => ctx.stub.DelState assetID

/-- `FoodContract.UpdateStage`: the returned error and the stub after the call. -/
def UpdateStage (ctx : TransactionContext) (assetID newStage userRole : GoString) :
    Except Error Unit × Stub :=
  if userRole ≠ utf8 "producer" ∧ userRole ≠ utf8 "logistics" then
    (.error ⟨.AccessDenied, utf8 "Access Denied"⟩, ctx.stub)
  else
    match ReadAsset ctx assetID with
    | .error err => (.error err, ctx.stub)
    | .ok asset =>
      match ctx.GetID with
      | .error err => (.error err, ctx.stub)
      | .ok clientID =>
        let asset := { asset with CurrentStage := newStage, Owner := clientID }
        match Marshal asset with
        | .error err => (.error err, ctx.stub)
        | .ok bytes => ctx.stub.PutState assetID bytes

/-- A transaction proposal: one of the five functions of the contract with its
arguments, in the positional order of the source. -/
inductive Call where
  | CreateAsset (assetID productType : GoString) (quantity : Float64)
      (unit origin userRole : GoString)
  | DeleteAsset (assetID userRole : GoString)
  | UpdateStage (assetID newStage userRole : GoString)
  | ReadAsset (assetID : GoString)
  | AssetExists (assetID : GoString)

/-- What a successful call hands back: nothing, a record, or a boolean. -/
inductive Response where
  | unit
  | asset (a : FoodAsset)
  | bool (b : Bool)
deriving DecidableEq

/-- Run one call in a transaction context: its result and the stub after it.  The two
queries go through `GetState` only and hand the stub back as it was. -/
def invoke (ctx : TransactionContext) : Call → Except Error Response × Stub
  | .CreateAsset assetID productType quantity unit origin userRole =>
    let r := CreateAsset ctx assetID productType quantity unit origin userRole
    (r.1.map fun _ => Response.unit, r.2)
  | .DeleteAsset assetID userRole =>
    let r := DeleteAsset ctx assetID userRole
    (r.1.map fun _ => Response.unit, r.2)
  | .UpdateStage assetID newStage userRole =>
    let r := UpdateStage ctx assetID newStage userRole
    (r.1.map fun _ => Response.unit, r.2)
  | .ReadAsset assetID => ((ReadAsset ctx assetID).map Response.asset, ctx.stub)
  | .AssetExists assetID => ((AssetExists ctx assetID).map Response.bool, ctx.stub)

/-- One step of a history: the identity lookup of the invoking party, and its call. -/
abbrev Step := Except GoString GoString × Call

/-- Run a history of calls, each on the stub left by the one before it. -/
def run (s : Stub) : List Step → Stub
  | [] => s
  | step :: rest => run (invoke ⟨s, step.1⟩ step.2).2 rest

/-- The store answers a lookup of `assetID` with a value. -/
def Stub.Live (s : Stub) (assetID : GoString) : Prop :=
  ∃ bytes, s.GetState assetID = .ok (some bytes)

/-- A store that holds nothing and whose primitives never fail. -/
def emptyStub : Stub :=
  { state := fun _ => none, getFault := fun _ => none, putFault := fun _ _ => none,
    delFault := fun _ => none }

/-- A transaction context on stub `s` invoked by the party `caller`. -/
def asCaller (s : Stub) (caller : String) : TransactionContext :=
  { stub := s, clientIdentity := .ok (utf8 caller) }

/-- The stub left by a producer, `"alice"`, creating the asset `"a1"` in the empty store. -/
def stubWithApple : Stub :=
  (CreateAsset (asCaller emptyStub "alice") (utf8 "a1") (utf8 "apple") one (utf8 "kg")
    (utf8 "IT") (utf8 "producer")).2

/-- Two producers creating assets under the one-byte ids `0xFF` and `0xFE`, neither of
which is valid UTF-8. -/
def illFormedHistory : List Step :=
  [(.ok (utf8 "alice"),
      .CreateAsset [0xFF] (utf8 "apple") one (utf8 "kg") (utf8 "IT") (utf8 "producer")),
   (.ok (utf8 "bob"),
      .CreateAsset [0xFE] (utf8 "pear") two (utf8 "t") (utf8 "FR") (utf8 "producer"))]

end Wire

/-! ## encoding/json round trip -/

theorem foldName_tags :
    foldName "assetId" = "ASSETID" ∧ foldName "productType" = "PRODUCTTYPE" ∧
    foldName "quantity" = "QUANTITY" ∧ foldName "unit" = "UNIT" ∧
    foldName "origin" = "ORIGIN" ∧ foldName "currentStage" = "CURRENTSTAGE" ∧
    foldName "owner" = "OWNER" := by decide

theorem Unmarshal_Marshal (asset : FoodAsset) (bytes : Bytes)
    (h : Marshal asset = .ok bytes) : Unmarshal bytes = .ok asset := by
  unfold Marshal at h
  split at h
  · rename_i hfin
    cases h
    obtain ⟨h1, h2, h3, h4, h5, h6, h7⟩ := foldName_tags
    simp [Unmarshal, unmarshalMember, storeString, storeFloat, h1, h2, h3, h4, h5, h6, h7, hfin,
      FoodAsset.zero]
  · cases h

theorem unmarshalMember_finite (st : Decoding) (m : String × JSON)
    (h : st.1.Quantity.isFinite = true) : (unmarshalMember st m).1.Quantity.isFinite = true := by
  unfold unmarshalMember
  simp only
  split_ifs <;> first
    | exact h
    | (unfold storeString; split <;> exact h)
    | (unfold storeFloat; split
       · exact h
       · split
         · assumption
         · exact h
       · exact h)

theorem foldl_unmarshalMember_finite (members : List (String × JSON)) (st : Decoding)
    (h : st.1.Quantity.isFinite = true) :
    (members.foldl unmarshalMember st).1.Quantity.isFinite = true := by
  induction members generalizing st with
  | nil => exact h
  | cons m ms ih => exact ih _ (unmarshalMember_finite st m h)

theorem Unmarshal_finite (bytes : Bytes) (asset : FoodAsset)
    (h : Unmarshal bytes = .ok asset) : asset.Quantity.isFinite = true := by
  unfold Unmarshal at h
  split at h
  · cases h
  · cases h; decide
  · simp only at h
    split at h
    · cases h
    · cases h
      exact foldl_unmarshalMember_finite _ _ (by decide)
  · cases h

/-! ## Inversion of the three writing transactions -/

theorem CreateAsset_ok_inv (ctx : TransactionContext) (assetID productType : String)
    (quantity : Float64) (unit origin userRole : String)
    (h : (CreateAsset ctx assetID productType quantity unit origin userRole).1 = .ok ()) :
    userRole = "producer" ∧ ctx.stub.getFault assetID = none ∧ ctx.stub.state assetID = none ∧
    ∃ clientID bytes, ctx.clientIdentity = .ok clientID ∧
      Marshal ⟨assetID, productType, quantity, unit, origin, "Raccolto", clientID⟩ = .ok bytes ∧
      ctx.stub.putFault assetID bytes = none ∧
      (CreateAsset ctx assetID productType quantity unit origin userRole).2 =
        { ctx.stub with state := Function.update ctx.stub.state assetID (some bytes) } := by
  by_cases hr : userRole = "producer"
  swap
  · simp [CreateAsset, hr] at h
  rcases hg : ctx.stub.getFault assetID with _ | e
  swap
  · simp [CreateAsset, AssetExists, Stub.GetState, hr, hg] at h
  rcases hs : ctx.stub.state assetID with _ | b
  swap
  · simp [CreateAsset, AssetExists, Stub.GetState, hr, hg, hs] at h
  rcases hc : ctx.clientIdentity with e | clientID
  · simp [CreateAsset, AssetExists, Stub.GetState, TransactionContext.GetID, hr, hg, hs, hc] at h
  rcases hm : Marshal ⟨assetID, productType, quantity, unit, origin, "Raccolto", clientID⟩
    with e | bytes
  · simp [CreateAsset, AssetExists, Stub.GetState, TransactionContext.GetID, hr, hg, hs, hc,
      hm] at h
  rcases hp : ctx.stub.putFault assetID bytes with _ | e
  swap
  · simp [CreateAsset, AssetExists, Stub.GetState, TransactionContext.GetID, Stub.PutState,
      hr, hg, hs, hc, hm, hp] at h
  refine ⟨hr, ?_, ?_, clientID, bytes, ?_, hm, hp, ?_⟩
  · rfl
  · rfl
  · rfl
  simp [CreateAsset, AssetExists, Stub.GetState, TransactionContext.GetID, Stub.PutState,
    hr, hg, hs, hc, hm, hp]

/-! ## Outcomes of the three writing transactions -/

theorem Marshal_error (asset : FoodAsset) (err : Error) (h : Marshal asset = .error err) :
    err = unsupportedValueError := by
  unfold Marshal at h
  split at h
  · cases h
  · cases h; rfl

theorem Unmarshal_error_kind (bytes : Bytes) (err : Error) (h : Unmarshal bytes = .error err) :
    err.kind = .Corrupt := by
  unfold Unmarshal at h
  split at h
  · cases h; rfl
  · cases h
  · simp only at h
    split at h
    · cases h; rfl
    · cases h
  · cases h; rfl

/-- Every outcome of `CreateAsset`: an error that leaves the stub alone, tagged
AccessDenied exactly when the role is not `"producer"`, or one successful `PutState`. -/
theorem CreateAsset_cases (ctx : TransactionContext) (assetID productType : String)
    (quantity : Float64) (unit origin userRole : String) :
    (∃ err, CreateAsset ctx assetID productType quantity unit origin userRole =
        (.error err, ctx.stub) ∧ (err.kind = .AccessDenied ↔ userRole ≠ "producer")) ∨
    (userRole = "producer" ∧ ctx.stub.state assetID = none ∧ ∃ bytes,
      CreateAsset ctx assetID productType quantity unit origin userRole =
        (.ok (), { ctx.stub with state := Function.update ctx.stub.state assetID (some bytes) }) ∧
      ctx.stub.PutState assetID bytes =
        (.ok (), { ctx.stub with state := Function.update ctx.stub.state assetID (some bytes) })) := by
  by_cases hr : userRole = "producer"
  swap
  · exact Or.inl ⟨⟨.AccessDenied, "Access Denied: only producers can create assets"⟩,
      by simp [CreateAsset, hr], by simp [hr]⟩
  rcases hg : ctx.stub.getFault assetID with _ | e
  swap
  · exact Or.inl ⟨⟨.StoreFailure, e⟩,
      by simp [CreateAsset, AssetExists, Stub.GetState, hr, hg], by simp [hr]⟩
  rcases hs : ctx.stub.state assetID with _ | b
  swap
  · exact Or.inl ⟨⟨.AlreadyExists, "asset " ++ assetID ++ " already exists"⟩,
      by simp [CreateAsset, AssetExists, Stub.GetState, hr, hg, hs], by simp [hr]⟩
  rcases hc : ctx.clientIdentity with e | clientID
  · exact Or.inl ⟨⟨.IdentityFailure, e⟩,
      by simp [CreateAsset, AssetExists, Stub.GetState, TransactionContext.GetID, hr, hg, hs, hc],
      by simp [hr]⟩
  rcases hm : Marshal ⟨assetID, productType, quantity, unit, origin, "Raccolto", clientID⟩
    with e | bytes
  · refine Or.inl ⟨e, by simp [CreateAsset, AssetExists, Stub.GetState, TransactionContext.GetID,
      hr, hg, hs, hc, hm], ?_⟩
    rw [Marshal_error _ _ hm]
    simp [hr, unsupportedValueError]
  rcases hp : ctx.stub.putFault assetID bytes with _ | e
  swap
  · exact Or.inl ⟨⟨.StoreFailure, e⟩,
      by simp [CreateAsset, AssetExists, Stub.GetState, TransactionContext.GetID, Stub.PutState,
        hr, hg, hs, hc, hm, hp], by simp [hr]⟩
  refine Or.inr ⟨hr, ?_, bytes, ?_, ?_⟩
  · rfl
  · simp [CreateAsset, AssetExists, Stub.GetState, TransactionContext.GetID, Stub.PutState,
      hr, hg, hs, hc, hm, hp]
  · simp [Stub.PutState, hp]

/-- Every outcome of `DeleteAsset`: an error that leaves the stub alone, tagged
AccessDenied exactly when the role is not `"producer"`, or one successful `DelState`. -/
theorem DeleteAsset_cases (ctx : TransactionContext) (assetID userRole : String) :
    (∃ err, DeleteAsset ctx assetID userRole = (.error err, ctx.stub) ∧
      (err.kind = .AccessDenied ↔ userRole ≠ "producer")) ∨
    (userRole = "producer" ∧
      DeleteAsset ctx assetID userRole =
        (.ok (), { ctx.stub with state := Function.update ctx.stub.state assetID none }) ∧
      ctx.stub.DelState assetID =
        (.ok (), { ctx.stub with state := Function.update ctx.stub.state assetID none })) := by
  by_cases hr : userRole = "producer"
  swap
  · exact Or.inl ⟨⟨.AccessDenied, "Access Denied: only producers can delete assets"⟩,
      by simp [DeleteAsset, hr], by simp [hr]⟩
  rcases hg : ctx.stub.getFault assetID with _ | e
  swap
  · exact Or.inl ⟨⟨.StoreFailure, e⟩,
      by simp [DeleteAsset, AssetExists, Stub.GetState, hr, hg], by simp [hr]⟩
  rcases hs : ctx.stub.state assetID with _ | b
  · exact Or.inl ⟨⟨.NotFound, "the asset " ++ assetID ++ " does not exist"⟩,
      by simp [DeleteAsset, AssetExists, Stub.GetState, hr, hg, hs], by simp [hr]⟩
  rcases hd : ctx.stub.delFault assetID with _ | e
  swap
  · exact Or.inl ⟨⟨.StoreFailure, e⟩,
      by simp [DeleteAsset, AssetExists, Stub.GetState, Stub.DelState, hr, hg, hs, hd],
      by simp [hr]⟩
  refine Or.inr ⟨hr, ?_, ?_⟩
  · simp [DeleteAsset, AssetExists, Stub.GetState, Stub.DelState, hr, hg, hs, hd]
  · simp [Stub.DelState, hd]

/-- Every outcome of `UpdateStage`: an error that leaves the stub alone, tagged
AccessDenied exactly when the role is neither `"producer"` nor `"logistics"`, or one
successful `PutState` of the record read, with its stage and owner replaced. -/
theorem UpdateStage_cases (ctx : TransactionContext) (assetID newStage userRole : String) :
    (∃ err, UpdateStage ctx assetID newStage userRole = (.error err, ctx.stub) ∧
      (err.kind = .AccessDenied ↔ (userRole ≠ "producer" ∧ userRole ≠ "logistics"))) ∨
    ((userRole = "producer" ∨ userRole = "logistics") ∧ ∃ asset clientID bytes,
      ReadAsset ctx assetID = .ok asset ∧
      Marshal { asset with CurrentStage := newStage, Owner := clientID } = .ok bytes ∧
      UpdateStage ctx assetID newStage userRole =
        (.ok (), { ctx.stub with state := Function.update ctx.stub.state assetID (some bytes) }) ∧
      ctx.stub.PutState assetID bytes =
        (.ok (), { ctx.stub with state := Function.update ctx.stub.state assetID (some bytes) })) := by
  by_cases hgate : userRole ≠ "producer" ∧ userRole ≠ "logistics"
  · exact Or.inl ⟨⟨.AccessDenied, "Access Denied"⟩, by simp [UpdateStage, hgate],
      by simp [hgate]⟩
  have hrole : userRole = "producer" ∨ userRole = "logistics" := by
    by_contra hcon
    exact hgate ⟨fun h => hcon (Or.inl h), fun h => hcon (Or.inr h)⟩
  rcases hread : ReadAsset ctx assetID with e | asset
  · refine Or.inl ⟨e, by simp [UpdateStage, hgate, hread], ?_⟩
    have hk : e.kind ≠ .AccessDenied := by
      rcases hg : ctx.stub.getFault assetID with _ | m
      · rcases hs : ctx.stub.state assetID with _ | stored
        · simp [ReadAsset, Stub.GetState, hg, hs] at hread
          rw [← hread]
          simp
        · simp only [ReadAsset, Stub.GetState, hg, hs] at hread
          rw [Unmarshal_error_kind _ _ hread]
          simp
      · simp [ReadAsset, Stub.GetState, hg] at hread
        rw [← hread]
        simp
    simp [hk, hgate]
  rcases hc : ctx.clientIdentity with e | clientID
  · exact Or.inl ⟨⟨.IdentityFailure, e⟩,
      by simp [UpdateStage, hgate, hread, TransactionContext.GetID, hc], by simp [hgate]⟩
  rcases hm : Marshal { asset with CurrentStage := newStage, Owner := clientID } with e | bytes
  · refine Or.inl ⟨e, by simp [UpdateStage, hgate, hread, TransactionContext.GetID, hc, hm], ?_⟩
    rw [Marshal_error _ _ hm]
    simp [hgate, unsupportedValueError]
  rcases hp : ctx.stub.putFault assetID bytes with _ | e
  swap
  · exact Or.inl ⟨⟨.StoreFailure, e⟩,
      by simp [UpdateStage, hgate, hread, TransactionContext.GetID, hc, hm, Stub.PutState, hp],
      by simp [hgate]⟩
  refine Or.inr ⟨hrole, asset, clientID, bytes, rfl, hm, ?_, ?_⟩
  · simp [UpdateStage, hgate, hread, TransactionContext.GetID, hc, hm, Stub.PutState, hp]
  · simp [Stub.PutState, hp]

/-! ## CreateAsset -/

/-- C1. For every store, asset id, product data and caller identity, `CreateAsset` with a
role other than exactly `"producer"` fails with the AccessDenied error and hands back the
store it was given. -/
theorem CreateAsset_access_denied (ctx : TransactionContext) (assetID productType : String)
    (quantity : Float64) (unit origin userRole : String) (h : userRole ≠ "producer") :
    CreateAsset ctx assetID productType quantity unit origin userRole =
      (.error ⟨.AccessDenied, "Access Denied: only producers can create assets"⟩, ctx.stub) := by
  simp [CreateAsset, h]

theorem CreateAsset_access_denied_witness :
    "logistics" ≠ "producer" ∧
    CreateAsset (asCaller emptyStub "alice") "a1" "apple" one "kg" "IT" "logistics" =
      (.error ⟨.AccessDenied, "Access Denied: only producers can create assets"⟩, emptyStub) :=
  ⟨by decide, CreateAsset_access_denied (asCaller emptyStub "alice") "a1" "apple" one "kg" "IT"
    "logistics" (by decide)⟩

/-- C3, as stated, fails: after `"alice"` has created `"a1"`, a second `CreateAsset` on
`"a1"` that differs from the first in its role argument is turned away by the access gate,
with AccessDenied and not with AlreadyExists. -/
theorem second_CreateAsset_denied_not_AlreadyExists :
    (CreateAsset (asCaller emptyStub "alice") "a1" "apple" one "kg" "IT" "producer").1 = .ok () ∧
    (CreateAsset
        (asCaller (CreateAsset (asCaller emptyStub "alice") "a1" "apple" one "kg" "IT"
          "producer").2 "alice") "a1" "apple" one "kg" "IT" "logistics").1 =
      .error ⟨.AccessDenied, "Access Denied: only producers can create assets"⟩ ∧
    (CreateAsset
        (asCaller (CreateAsset (asCaller emptyStub "alice") "a1" "apple" one "kg" "IT"
          "producer").2 "alice") "a1" "apple" one "kg" "IT" "logistics").1 ≠
      .error ⟨.AlreadyExists, "asset a1 already exists"⟩ := by
  refine ⟨by decide, by decide, by decide⟩

/-- C3, amended. If a first `CreateAsset` on `assetID` succeeds, then a second
`CreateAsset` on the same id issued on the resulting store, by any caller and with any
product data, fails with AlreadyExists when its role is `"producer"` and with AccessDenied
when it is not; either way it hands back the store unchanged, so the value stored under
`assetID` is still the serialised record written by the first call. -/
theorem second_CreateAsset_fails (ctx : TransactionContext) (assetID productType : String)
    (quantity : Float64) (unit origin userRole : String) (caller2 : Except String String)
    (productType2 : String) (quantity2 : Float64) (unit2 origin2 userRole2 : String)
    (hok : (CreateAsset ctx assetID productType quantity unit origin userRole).1 = .ok ()) :
    (userRole2 = "producer" →
      (CreateAsset ⟨(CreateAsset ctx assetID productType quantity unit origin userRole).2, caller2⟩
        assetID productType2 quantity2 unit2 origin2 userRole2).1 =
        .error ⟨.AlreadyExists, "asset " ++ assetID ++ " already exists"⟩) ∧
    (userRole2 ≠ "producer" →
      (CreateAsset ⟨(CreateAsset ctx assetID productType quantity unit origin userRole).2, caller2⟩
        assetID productType2 quantity2 unit2 origin2 userRole2).1 =
        .error ⟨.AccessDenied, "Access Denied: only producers can create assets"⟩) ∧
    (CreateAsset ⟨(CreateAsset ctx assetID productType quantity unit origin userRole).2, caller2⟩
        assetID productType2 quantity2 unit2 origin2 userRole2).2 =
      (CreateAsset ctx assetID productType quantity unit origin userRole).2 ∧
    ∃ caller bytes, ctx.clientIdentity = .ok caller ∧
      Marshal ⟨assetID, productType, quantity, unit, origin, "Raccolto", caller⟩ = .ok bytes ∧
      (CreateAsset ⟨(CreateAsset ctx assetID productType quantity unit origin userRole).2, caller2⟩
        assetID productType2 quantity2 unit2 origin2 userRole2).2.state assetID = some bytes := by
  obtain ⟨-, hg, -, clientID, bytes, hc, hm, -, hs⟩ :=
    CreateAsset_ok_inv ctx assetID productType quantity unit origin userRole hok
  rw [hs]
  have hsame : (CreateAsset
      ⟨{ ctx.stub with state := Function.update ctx.stub.state assetID (some bytes) }, caller2⟩
      assetID productType2 quantity2 unit2 origin2 userRole2).2 =
      { ctx.stub with state := Function.update ctx.stub.state assetID (some bytes) } := by
    by_cases hr : userRole2 = "producer" <;>
      simp [CreateAsset, AssetExists, Stub.GetState, hg, hr]
  refine ⟨?_, ?_, hsame, clientID, bytes, hc, hm, ?_⟩
  · intro hr
    simp [CreateAsset, AssetExists, Stub.GetState, hg, hr]
  · intro hr
    simp [CreateAsset, hr]
  · rw [hsame]
    simp

theorem second_CreateAsset_fails_witness :
    (CreateAsset (asCaller emptyStub "alice") "a1" "apple" one "kg" "IT" "producer").1 = .ok () ∧
    (CreateAsset
        ⟨(CreateAsset (asCaller emptyStub "alice") "a1" "apple" one "kg" "IT" "producer").2,
          .ok "bob"⟩ "a1" "pear" two "t" "FR" "producer").1 =
      .error ⟨.AlreadyExists, "asset a1 already exists"⟩ :=
  ⟨by decide,
    (second_CreateAsset_fails (asCaller emptyStub "alice") "a1" "apple" one "kg" "IT" "producer"
      (.ok "bob") "pear" two "t" "FR" "producer" (by decide)).1 rfl⟩

/-! ## UpdateStage and DeleteAsset -/

/-- C5. For every store, id and new stage, `UpdateStage` with a role that is neither
`"producer"` nor `"logistics"` fails with the AccessDenied error, whether or not the id is
live, and hands back the store it was given. -/
theorem UpdateStage_access_denied (ctx : TransactionContext)
    (assetID newStage userRole : String)
    (h1 : userRole ≠ "producer") (h2 : userRole ≠ "logistics") :
    UpdateStage ctx assetID newStage userRole =
      (.error ⟨.AccessDenied, "Access Denied"⟩, ctx.stub) := by
  simp [UpdateStage, h1, h2]

theorem UpdateStage_access_denied_witness :
    "customer" ≠ "producer" ∧ "customer" ≠ "logistics" ∧
    UpdateStage (asCaller stubWithApple "bob") "a1" "Shipped" "customer" =
      (.error ⟨.AccessDenied, "Access Denied"⟩, stubWithApple) ∧
    UpdateStage (asCaller emptyStub "bob") "a1" "Shipped" "customer" =
      (.error ⟨.AccessDenied, "Access Denied"⟩, emptyStub) :=
  ⟨by decide, by decide,
    UpdateStage_access_denied (asCaller stubWithApple "bob") "a1" "Shipped" "customer"
      (by decide) (by decide),
    UpdateStage_access_denied (asCaller emptyStub "bob") "a1" "Shipped" "customer"
      (by decide) (by decide)⟩

/-- C6. If `assetID` is live and the store accepts the deletion, `DeleteAsset` with role
`"producer"` succeeds; on the resulting store `AssetExists` returns false and `ReadAsset`
fails with the NotFound error. -/
theorem DeleteAsset_then_absent (ctx : TransactionContext) (assetID : String)
    (reader : Except String String)
    (hlive : ctx.stub.Live assetID) (hdel : ctx.stub.delFault assetID = none) :
    (DeleteAsset ctx assetID "producer").1 = .ok () ∧
    AssetExists ⟨(DeleteAsset ctx assetID "producer").2, reader⟩ assetID = .ok false ∧
    ReadAsset ⟨(DeleteAsset ctx assetID "producer").2, reader⟩ assetID =
      .error ⟨.NotFound, "asset " ++ assetID ++ " not found"⟩ := by
  obtain ⟨stored, hget⟩ := hlive
  have hg : ctx.stub.getFault assetID = none := by
    rcases hg : ctx.stub.getFault assetID with _ | e
    · rfl
    · simp [Stub.GetState, hg] at hget
  have hs : ctx.stub.state assetID = some stored := by
    simpa [Stub.GetState, hg] using hget
  refine ⟨?_, ?_, ?_⟩ <;>
    simp [DeleteAsset, AssetExists, ReadAsset, Stub.GetState, Stub.DelState, hg, hs, hdel]

theorem DeleteAsset_then_absent_witness :
    stubWithApple.Live "a1" ∧ stubWithApple.delFault "a1" = none ∧
    (DeleteAsset (asCaller stubWithApple "alice") "a1" "producer").1 = .ok () ∧
    AssetExists ⟨(DeleteAsset (asCaller stubWithApple "alice") "a1" "producer").2, .ok "bob"⟩
      "a1" = .ok false ∧
    ReadAsset ⟨(DeleteAsset (asCaller stubWithApple "alice") "a1" "producer").2, .ok "bob"⟩
      "a1" = .error ⟨.NotFound, "asset a1 not found"⟩ :=
  ⟨⟨_, rfl⟩, rfl,
    DeleteAsset_then_absent (asCaller stubWithApple "alice") "a1" (.ok "bob") ⟨_, rfl⟩ rfl⟩

/-- C7. If `assetID` is absent, `UpdateStage` with role `"producer"` or `"logistics"` and
`DeleteAsset` with role `"producer"` both fail with the NotFound error and hand back the
store they were given. -/
theorem UpdateStage_DeleteAsset_not_found (ctx : TransactionContext)
    (assetID newStage userRole : String)
    (habsent : ctx.stub.Absent assetID)
    (hrole : userRole = "producer" ∨ userRole = "logistics") :
    UpdateStage ctx assetID newStage userRole =
      (.error ⟨.NotFound, "asset " ++ assetID ++ " not found"⟩, ctx.stub) ∧
    DeleteAsset ctx assetID "producer" =
      (.error ⟨.NotFound, "the asset " ++ assetID ++ " does not exist"⟩, ctx.stub) := by
  have hgate : ¬ (userRole ≠ "producer" ∧ userRole ≠ "logistics") := by
    rintro ⟨h1, h2⟩
    rcases hrole with h | h
    · exact h1 h
    · exact h2 h
  unfold Stub.Absent at habsent
  constructor
  · simp [UpdateStage, hgate, ReadAsset, habsent]
  · simp [DeleteAsset, AssetExists, habsent]

theorem UpdateStage_DeleteAsset_not_found_witness :
    emptyStub.Absent "a1" ∧ ("logistics" = "producer" ∨ "logistics" = "logistics") ∧
    UpdateStage (asCaller emptyStub "bob") "a1" "Shipped" "logistics" =
      (.error ⟨.NotFound, "asset a1 not found"⟩, emptyStub) ∧
    DeleteAsset (asCaller emptyStub "bob") "a1" "producer" =
      (.error ⟨.NotFound, "the asset a1 does not exist"⟩, emptyStub) :=
  ⟨rfl, by decide,
    UpdateStage_DeleteAsset_not_found (asCaller emptyStub "bob") "a1" "Shipped" "logistics" rfl
      (by decide)⟩

/-! ## The access gate and atomicity -/

/-- C8. The access gate admits exactly the fixed role sets: `CreateAsset` and
`DeleteAsset` fail with AccessDenied if and only if the role is not `"producer"`,
`UpdateStage` if and only if the role is neither `"producer"` nor `"logistics"`
(`ReadAsset` and `AssetExists` have no role parameter); and a denied call returns the same
result in every transaction context, whatever its store holds, and hands back the store
it was given. -/
theorem access_gate (ctx ctx2 : TransactionContext) (assetID productType : String)
    (quantity : Float64) (unit origin newStage userRole : String) :
    (failsWith (CreateAsset ctx assetID productType quantity unit origin userRole).1
        .AccessDenied = true ↔ userRole ≠ "producer") ∧
    (failsWith (DeleteAsset ctx assetID userRole).1 .AccessDenied = true ↔
        userRole ≠ "producer") ∧
    (failsWith (UpdateStage ctx assetID newStage userRole).1 .AccessDenied = true ↔
        (userRole ≠ "producer" ∧ userRole ≠ "logistics")) ∧
    (userRole ≠ "producer" →
      (CreateAsset ctx assetID productType quantity unit origin userRole).1 =
        (CreateAsset ctx2 assetID productType quantity unit origin userRole).1 ∧
      (CreateAsset ctx assetID productType quantity unit origin userRole).2 = ctx.stub ∧
      (DeleteAsset ctx assetID userRole).1 = (DeleteAsset ctx2 assetID userRole).1 ∧
      (DeleteAsset ctx assetID userRole).2 = ctx.stub) ∧
    (userRole ≠ "producer" ∧ userRole ≠ "logistics" →
      (UpdateStage ctx assetID newStage userRole).1 =
        (UpdateStage ctx2 assetID newStage userRole).1 ∧
      (UpdateStage ctx assetID newStage userRole).2 = ctx.stub) := by
  refine ⟨?_, ?_, ?_, ?_, ?_⟩
  · rcases CreateAsset_cases ctx assetID productType quantity unit origin userRole with
      ⟨err, h, hk⟩ | ⟨hr, -, bytes, h, -⟩
    · rw [h, ← hk]
      simp [failsWith]
    · rw [h]
      simp [failsWith, hr]
  · rcases DeleteAsset_cases ctx assetID userRole with ⟨err, h, hk⟩ | ⟨hr, h, -⟩
    · rw [h, ← hk]
      simp [failsWith]
    · rw [h]
      simp [failsWith, hr]
  · rcases UpdateStage_cases ctx assetID newStage userRole with
      ⟨err, h, hk⟩ | ⟨hr, asset, clientID, bytes, -, -, h, -⟩
    · rw [h, ← hk]
      simp [failsWith]
    · rw [h]
      have hgate : ¬ (userRole ≠ "producer" ∧ userRole ≠ "logistics") := by
        rintro ⟨h1, h2⟩
        rcases hr with h | h
        · exact h1 h
        · exact h2 h
      simp only [failsWith, hgate, iff_false]
      simp
  · intro hr
    simp [CreateAsset, DeleteAsset, hr]
  · intro hgate
    simp [UpdateStage, hgate]

theorem access_gate_witness :
    failsWith (CreateAsset (asCaller emptyStub "alice") "a1" "apple" one "kg" "IT"
      "customer").1 .AccessDenied = true ∧
    failsWith (DeleteAsset (asCaller stubWithApple "alice") "a1" "logistics").1
      .AccessDenied = true ∧
    ("customer" ≠ "producer" ∧ "customer" ≠ "logistics") ∧
    (UpdateStage (asCaller emptyStub "alice") "a1" "Shipped" "customer").1 =
      (UpdateStage (asCaller stubWithApple "bob") "a1" "Shipped" "customer").1 ∧
    (UpdateStage (asCaller emptyStub "alice") "a1" "Shipped" "customer").2 = emptyStub :=
  ⟨by decide, by decide, by decide,
    (access_gate (asCaller emptyStub "alice") (asCaller stubWithApple "bob") "a1" "apple" one "kg"
      "IT" "Shipped" "customer").2.2.2.2 (by decide)⟩

/-- C9. Atomicity on failure, for each of the five functions and every store and argument
list: a call that returns an error hands back the store it was given; and the store after
any call is the store before it, or the outcome of one successful `PutState` on the
asset id of a call that succeeded, or the outcome of one successful `DelState` on the
asset id of a call that succeeded. -/
theorem failure_is_atomic (ctx : TransactionContext) (call : Call) :
    (∀ err, (invoke ctx call).1 = .error err → (invoke ctx call).2 = ctx.stub) ∧
    ((invoke ctx call).2 = ctx.stub ∨
      ((invoke ctx call).1 = .ok .unit ∧
        ∃ bytes, ctx.stub.PutState call.assetID bytes = (.ok (), (invoke ctx call).2)) ∨
      ((invoke ctx call).1 = .ok .unit ∧
        ctx.stub.DelState call.assetID = (.ok (), (invoke ctx call).2))) := by
  cases call with
  | CreateAsset assetID productType quantity unit origin userRole =>
    rcases CreateAsset_cases ctx assetID productType quantity unit origin userRole with
      ⟨err, h, -⟩ | ⟨-, -, bytes, h, hput⟩
    · simp [invoke, h]
    · refine ⟨by simp [invoke, h, Except.map], Or.inr (Or.inl ⟨by simp [invoke, h, Except.map],
        bytes, ?_⟩)⟩
      simp [invoke, h, Call.assetID, hput]
  | DeleteAsset assetID userRole =>
    rcases DeleteAsset_cases ctx assetID userRole with ⟨err, h, -⟩ | ⟨-, h, hdel⟩
    · simp [invoke, h]
    · refine ⟨by simp [invoke, h, Except.map], Or.inr (Or.inr ⟨by simp [invoke, h, Except.map],
        ?_⟩)⟩
      simp [invoke, h, Call.assetID, hdel]
  | UpdateStage assetID newStage userRole =>
    rcases UpdateStage_cases ctx assetID newStage userRole with
      ⟨err, h, -⟩ | ⟨-, asset, clientID, bytes, -, -, h, hput⟩
    · simp [invoke, h]
    · refine ⟨by simp [invoke, h, Except.map], Or.inr (Or.inl ⟨by simp [invoke, h, Except.map],
        bytes, ?_⟩)⟩
      simp [invoke, h, Call.assetID, hput]
  | ReadAsset assetID => simp [invoke]
  | AssetExists assetID => simp [invoke]

theorem failure_is_atomic_witness :
    (invoke (asCaller stubWithApple "bob")
      (.CreateAsset "a1" "pear" two "t" "FR" "producer")).1 =
        .error ⟨.AlreadyExists, "asset a1 already exists"⟩ ∧
    (invoke (asCaller stubWithApple "bob")
      (.CreateAsset "a1" "pear" two "t" "FR" "producer")).2 = stubWithApple :=
  ⟨by decide,
    (failure_is_atomic (asCaller stubWithApple "bob")
      (.CreateAsset "a1" "pear" two "t" "FR" "producer")).1
      ⟨.AlreadyExists, "asset a1 already exists"⟩ (by decide)⟩

/-! ## Write-once fields -/

/-- `ReadAsset` looks at the stub through `GetState` on its key only. -/
theorem ReadAsset_congr (ctx ctx2 : TransactionContext) (key : String)
    (hg : ctx2.stub.getFault key = ctx.stub.getFault key)
    (hs : ctx2.stub.state key = ctx.stub.state key) :
    ReadAsset ctx2 key = ReadAsset ctx key := by
  simp [ReadAsset, Stub.GetState, hg, hs]

/-- C10. Write-once fields as a step invariant: for every call of the contract and every
key, if the key holds a readable record before the call and a readable record after it,
the two records agree on `AssetID`, `ProductType`, `Quantity`, `Unit` and `Origin`. -/
theorem write_once_fields (ctx : TransactionContext) (call : Call) (key : String)
    (r r2 : FoodAsset) (reader reader2 : Except String String)
    (hbefore : ReadAsset ⟨ctx.stub, reader⟩ key = .ok r)
    (hafter : ReadAsset ⟨(invoke ctx call).2, reader2⟩ key = .ok r2) :
    r2.AssetID = r.AssetID ∧ r2.ProductType = r.ProductType ∧ r2.Quantity = r.Quantity ∧
    r2.Unit = r.Unit ∧ r2.Origin = r.Origin := by
  have hsame : (invoke ctx call).2 = ctx.stub →
      r2.AssetID = r.AssetID ∧ r2.ProductType = r.ProductType ∧ r2.Quantity = r.Quantity ∧
      r2.Unit = r.Unit ∧ r2.Origin = r.Origin := by
    intro h
    rw [h] at hafter
    have : ReadAsset ⟨ctx.stub, reader2⟩ key = ReadAsset ⟨ctx.stub, reader⟩ key :=
      ReadAsset_congr _ _ key rfl rfl
    rw [this, hbefore] at hafter
    cases hafter
    exact ⟨rfl, rfl, rfl, rfl, rfl⟩
  have hother : ∀ (assetID : String) (v : Option Bytes), key ≠ assetID →
      (invoke ctx call).2 = { ctx.stub with state := Function.update ctx.stub.state assetID v } →
      r2.AssetID = r.AssetID ∧ r2.ProductType = r.ProductType ∧ r2.Quantity = r.Quantity ∧
      r2.Unit = r.Unit ∧ r2.Origin = r.Origin := by
    intro assetID v hne h
    rw [h] at hafter
    have : ReadAsset ⟨{ ctx.stub with state := Function.update ctx.stub.state assetID v },
        reader2⟩ key = ReadAsset ⟨ctx.stub, reader⟩ key :=
      ReadAsset_congr _ _ key rfl (by simp [Function.update, hne])
    rw [this, hbefore] at hafter
    cases hafter
    exact ⟨rfl, rfl, rfl, rfl, rfl⟩
  have hg : ctx.stub.getFault key = none := by
    rcases hg : ctx.stub.getFault key with _ | e
    · rfl
    · simp [ReadAsset, Stub.GetState, hg] at hbefore
  cases call with
  | CreateAsset assetID productType quantity unit origin userRole =>
    rcases CreateAsset_cases ctx assetID productType quantity unit origin userRole with
      ⟨err, h, -⟩ | ⟨-, hs, bytes, h, -⟩
    · exact hsame (by simp [invoke, h])
    · by_cases hk : key = assetID
      · subst hk
        simp [ReadAsset, Stub.GetState, hg, hs] at hbefore
      · exact hother assetID (some bytes) hk (by simp [invoke, h])
  | DeleteAsset assetID userRole =>
    rcases DeleteAsset_cases ctx assetID userRole with ⟨err, h, -⟩ | ⟨-, h, -⟩
    · exact hsame (by simp [invoke, h])
    · by_cases hk : key = assetID
      · subst hk
        simp [invoke, h, ReadAsset, Stub.GetState, hg] at hafter
      · exact hother assetID none hk (by simp [invoke, h])
  | UpdateStage assetID newStage userRole =>
    rcases UpdateStage_cases ctx assetID newStage userRole with
      ⟨err, h, -⟩ | ⟨-, asset, clientID, bytes, hread, hm, h, -⟩
    · exact hsame (by simp [invoke, h])
    · by_cases hk : key = assetID
      · subst hk
        have : ReadAsset ctx key = ReadAsset ⟨ctx.stub, reader⟩ key :=
          ReadAsset_congr _ _ key rfl rfl
        rw [this, hbefore] at hread
        cases hread
        simp [invoke, h, ReadAsset, Stub.GetState, hg, Unmarshal_Marshal _ _ hm] at hafter
        rw [← hafter]
        exact ⟨rfl, rfl, rfl, rfl, rfl⟩
      · exact hother assetID (some bytes) hk (by simp [invoke, h])
  | ReadAsset assetID => exact hsame (by simp [invoke])
  | AssetExists assetID => exact hsame (by simp [invoke])

theorem write_once_fields_witness :
    ReadAsset ⟨(asCaller stubWithApple "bob").stub, .ok "carol"⟩ "a1" = .ok apple ∧
    ReadAsset ⟨(invoke (asCaller stubWithApple "bob")
        (.UpdateStage "a1" "Shipped" "logistics")).2, .ok "carol"⟩ "a1" =
      .ok ⟨"a1", "apple", one, "kg", "IT", "Shipped", "bob"⟩ ∧
    ("a1" = apple.AssetID ∧ "apple" = apple.ProductType ∧ one = apple.Quantity ∧
      "kg" = apple.Unit ∧ "IT" = apple.Origin) :=
  ⟨by decide, by decide,
    write_once_fields (asCaller stubWithApple "bob") (.UpdateStage "a1" "Shipped" "logistics")
      "a1" apple ⟨"a1", "apple", one, "kg", "IT", "Shipped", "bob"⟩ (.ok "carol") (.ok "carol")
      (by decide) (by decide)⟩

/-! ## Steps of a history -/

theorem UpdateStage_ok_inv (ctx : TransactionContext) (assetID newStage userRole : String)
    (h : (UpdateStage ctx assetID newStage userRole).1 = .ok ()) :
    (userRole = "producer" ∨ userRole = "logistics") ∧ ctx.stub.getFault assetID = none ∧
    ∃ stored asset clientID bytes, ctx.stub.state assetID = some stored ∧
      Unmarshal stored = .ok asset ∧ ctx.clientIdentity = .ok clientID ∧
      Marshal { asset with CurrentStage := newStage, Owner := clientID } = .ok bytes ∧
      ctx.stub.putFault assetID bytes = none ∧
      UpdateStage ctx assetID newStage userRole =
        (.ok (), { ctx.stub with state := Function.update ctx.stub.state assetID (some bytes) }) := by
  by_cases hgate : userRole ≠ "producer" ∧ userRole ≠ "logistics"
  · simp [UpdateStage, hgate] at h
  have hrole : userRole = "producer" ∨ userRole = "logistics" := by
    by_contra hcon
    exact hgate ⟨fun h => hcon (Or.inl h), fun h => hcon (Or.inr h)⟩
  rcases hg : ctx.stub.getFault assetID with _ | e
  swap
  · simp [UpdateStage, hgate, ReadAsset, Stub.GetState, hg] at h
  rcases hs : ctx.stub.state assetID with _ | stored
  · simp [UpdateStage, hgate, ReadAsset, Stub.GetState, hg, hs] at h
  rcases hun : Unmarshal stored with e | asset
  · simp [UpdateStage, hgate, ReadAsset, Stub.GetState, hg, hs, hun] at h
  rcases hc : ctx.clientIdentity with e | clientID
  · simp [UpdateStage, hgate, ReadAsset, Stub.GetState, hg, hs, hun, TransactionContext.GetID,
      hc] at h
  rcases hm : Marshal { asset with CurrentStage := newStage, Owner := clientID } with e | bytes
  · simp [UpdateStage, hgate, ReadAsset, Stub.GetState, hg, hs, hun, TransactionContext.GetID,
      hc, hm] at h
  rcases hp : ctx.stub.putFault assetID bytes with _ | e
  swap
  · simp [UpdateStage, hgate, ReadAsset, Stub.GetState, hg, hs, hun, TransactionContext.GetID,
      hc, hm, Stub.PutState, hp] at h
  refine ⟨hrole, ?_, stored, asset, clientID, bytes, ?_, hun, ?_, hm, hp, ?_⟩
  · rfl
  · rfl
  · rfl
  · simp [UpdateStage, hgate, ReadAsset, Stub.GetState, hg, hs, hun, TransactionContext.GetID,
      hc, hm, Stub.PutState, hp]

/-- A call that returns an error hands back the stub it was given. -/
theorem invoke_error_stub (ctx : TransactionContext) (call : Call) (err : Error)
    (h : (invoke ctx call).1 = .error err) : (invoke ctx call).2 = ctx.stub := by
  cases call with
  | CreateAsset assetID productType quantity unit origin userRole =>
    rcases CreateAsset_cases ctx assetID productType quantity unit origin userRole with
      ⟨e, h2, -⟩ | ⟨-, -, bytes, h2, -⟩
    · simp [invoke, h2]
    · simp [invoke, h2, Except.map] at h
  | DeleteAsset assetID userRole =>
    rcases DeleteAsset_cases ctx assetID userRole with ⟨e, h2, -⟩ | ⟨-, h2, -⟩
    · simp [invoke, h2]
    · simp [invoke, h2, Except.map] at h
  | UpdateStage assetID newStage userRole =>
    rcases UpdateStage_cases ctx assetID newStage userRole with
      ⟨e, h2, -⟩ | ⟨-, asset, clientID, bytes, -, -, h2, -⟩
    · simp [invoke, h2]
    · simp [invoke, h2, Except.map] at h
  | ReadAsset assetID => simp [invoke]
  | AssetExists assetID => simp [invoke]

/-- A call changes the stub, if at all, in the value held under its asset id. -/
theorem invoke_stub (ctx : TransactionContext) (call : Call) :
    ∃ v, (invoke ctx call).2 =
      { ctx.stub with state := Function.update ctx.stub.state call.assetID v } := by
  cases call with
  | CreateAsset assetID productType quantity unit origin userRole =>
    rcases CreateAsset_cases ctx assetID productType quantity unit origin userRole with
      ⟨e, h2, -⟩ | ⟨-, -, bytes, h2, -⟩
    · exact ⟨ctx.stub.state assetID, by simp [invoke, h2, Call.assetID]⟩
    · exact ⟨some bytes, by simp [invoke, h2, Call.assetID]⟩
  | DeleteAsset assetID userRole =>
    rcases DeleteAsset_cases ctx assetID userRole with ⟨e, h2, -⟩ | ⟨-, h2, -⟩
    · exact ⟨ctx.stub.state assetID, by simp [invoke, h2, Call.assetID]⟩
    · exact ⟨none, by simp [invoke, h2, Call.assetID]⟩
  | UpdateStage assetID newStage userRole =>
    rcases UpdateStage_cases ctx assetID newStage userRole with
      ⟨e, h2, -⟩ | ⟨-, asset, clientID, bytes, -, -, h2, -⟩
    · exact ⟨ctx.stub.state assetID, by simp [invoke, h2, Call.assetID]⟩
    · exact ⟨some bytes, by simp [invoke, h2, Call.assetID]⟩
  | ReadAsset assetID => exact ⟨ctx.stub.state assetID, by simp [invoke, Call.assetID]⟩
  | AssetExists assetID => exact ⟨ctx.stub.state assetID, by simp [invoke, Call.assetID]⟩

/-- A call leaves every key other than its asset id as it was. -/
theorem invoke_state_other (ctx : TransactionContext) (call : Call) (key : String)
    (h : key ≠ call.assetID) : (invoke ctx call).2.state key = ctx.stub.state key := by
  obtain ⟨v, hv⟩ := invoke_stub ctx call
  rw [hv]
  simp [Function.update, h]

/-- A call leaves the failures of the store as they were. -/
theorem invoke_faults (ctx : TransactionContext) (call : Call) :
    (invoke ctx call).2.getFault = ctx.stub.getFault ∧
    (invoke ctx call).2.putFault = ctx.stub.putFault ∧
    (invoke ctx call).2.delFault = ctx.stub.delFault := by
  obtain ⟨v, hv⟩ := invoke_stub ctx call
  rw [hv]
  exact ⟨rfl, rfl, rfl⟩

/-- One step keeps the owner invariant of a key: the value under `assetID`, if any, is a
readable record whose owner is the caller of the most recent successful write. -/
theorem owner_step (s : Stub) (step : Step) (assetID : String) (earlier : Option String)
    (hinv : ∀ b, s.state assetID = some b →
      ∃ r c, Unmarshal b = .ok r ∧ earlier = some c ∧ r.Owner = c) :
    ∀ b, (invoke ⟨s, step.1⟩ step.2).2.state assetID = some b →
      ∃ r c, Unmarshal b = .ok r ∧
        (match ownerWritten s step assetID with
          | some caller => some caller
          | none => earlier) = some c ∧ r.Owner = c := by
  obtain ⟨identity, call⟩ := step
  intro b hb
  cases call with
  | CreateAsset id productType quantity unit origin userRole =>
    by_cases hok : (CreateAsset ⟨s, identity⟩ id productType quantity unit origin userRole).1
        = .ok ()
    · obtain ⟨-, -, -, clientID, bytes, hc, hm, -, hs⟩ :=
        CreateAsset_ok_inv ⟨s, identity⟩ id productType quantity unit origin userRole hok
      simp only at hc
      subst hc
      by_cases hid : id = assetID
      · subst hid
        simp [invoke, hs] at hb
        subst hb
        exact ⟨_, clientID, Unmarshal_Marshal _ _ hm, by simp [ownerWritten, hok,
          Except.toOption], rfl⟩
      · have hne : assetID ≠ id := fun h => hid h.symm
        simp [invoke, hs, Function.update, hne] at hb
        simpa [ownerWritten, hid] using hinv b hb
    · rcases CreateAsset_cases ⟨s, identity⟩ id productType quantity unit origin userRole with
        ⟨e, h2, -⟩ | ⟨-, -, bytes, h2, -⟩
      · simp [invoke, h2] at hb
        simpa [ownerWritten, hok] using hinv b hb
      · simp [h2] at hok
  | UpdateStage id newStage userRole =>
    by_cases hok : (UpdateStage ⟨s, identity⟩ id newStage userRole).1 = .ok ()
    · obtain ⟨-, -, stored, asset, clientID, bytes, -, -, hc, hm, -, hs⟩ :=
        UpdateStage_ok_inv ⟨s, identity⟩ id newStage userRole hok
      simp only at hc
      subst hc
      by_cases hid : id = assetID
      · subst hid
        simp [invoke, hs] at hb
        subst hb
        exact ⟨_, clientID, Unmarshal_Marshal _ _ hm, by simp [ownerWritten, hok,
          Except.toOption], rfl⟩
      · have hne : assetID ≠ id := fun h => hid h.symm
        simp [invoke, hs, Function.update, hne] at hb
        simpa [ownerWritten, hid] using hinv b hb
    · rcases UpdateStage_cases ⟨s, identity⟩ id newStage userRole with
        ⟨e, h2, -⟩ | ⟨-, asset, clientID, bytes, -, -, h2, -⟩
      · simp [invoke, h2] at hb
        simpa [ownerWritten, hok] using hinv b hb
      · simp [h2] at hok
  | DeleteAsset id userRole =>
    rcases DeleteAsset_cases ⟨s, identity⟩ id userRole with ⟨e, h2, -⟩ | ⟨-, h2, -⟩
    · simp [invoke, h2] at hb
      simpa [ownerWritten] using hinv b hb
    · by_cases hid : assetID = id
      · subst hid
        simp [invoke, h2] at hb
      · simp [invoke, h2, Function.update, hid] at hb
        simpa [ownerWritten] using hinv b hb
  | ReadAsset id =>
    simp [invoke] at hb
    simpa [ownerWritten] using hinv b hb
  | AssetExists id =>
    simp [invoke] at hb
    simpa [ownerWritten] using hinv b hb

/-- A history keeps the owner invariant of a key. -/
theorem owner_run (assetID : String) (history : List Step) (s : Stub) (earlier : Option String)
    (hinv : ∀ b, s.state assetID = some b →
      ∃ r c, Unmarshal b = .ok r ∧ earlier = some c ∧ r.Owner = c) :
    ∀ b, (run s history).state assetID = some b →
      ∃ r c, Unmarshal b = .ok r ∧ lastOwner assetID s earlier history = some c ∧
        r.Owner = c := by
  induction history generalizing s earlier with
  | nil => exact hinv
  | cons step rest ih =>
    exact ih _ _ (owner_step s step assetID earlier hinv)

/-- A live key: the lookup succeeds and the state holds a value. -/
theorem Live_iff (s : Stub) (assetID : String) :
    s.Live assetID ↔ s.getFault assetID = none ∧ ∃ b, s.state assetID = some b := by
  unfold Stub.Live Stub.GetState
  rcases hg : s.getFault assetID with _ | e
  · simp
  · simp

/-- An absent key: the lookup succeeds and the state holds no value. -/
theorem Absent_iff (s : Stub) (assetID : String) :
    s.Absent assetID ↔ s.getFault assetID = none ∧ s.state assetID = none := by
  unfold Stub.Absent Stub.GetState
  rcases hg : s.getFault assetID with _ | e
  · simp
  · simp

/-! ## Owner tracking and the life of a key -/

/-- C11. Owner tracking: after any history of calls, each with its own caller, run from a
store that holds nothing, every id live at the end holds a readable record whose `Owner`
is the caller of the most recent successful `CreateAsset` or `UpdateStage` on that id in
the history; and a query or a failed call hands back the store it was given, so it leaves
every record, its `Owner` included, as it was. -/
theorem owner_tracking (s : Stub) (history : List Step) (assetID : String)
    (reader : Except String String)
    (hempty : ∀ k, s.state k = none) (hlive : (run s history).Live assetID) :
    (∃ r caller, ReadAsset ⟨run s history, reader⟩ assetID = .ok r ∧
      lastOwner assetID s none history = some caller ∧ r.Owner = caller) ∧
    (∀ (ctx : TransactionContext) (call : Call),
      (call.isQuery = true ∨ ∃ err, (invoke ctx call).1 = .error err) →
        (invoke ctx call).2 = ctx.stub) := by
  constructor
  · obtain ⟨hg, b, hb⟩ := (Live_iff _ _).1 hlive
    obtain ⟨r, c, hr, hc, ho⟩ := owner_run assetID history s none
      (fun b hb => by simp [hempty] at hb) b hb
    exact ⟨r, c, by simp [ReadAsset, Stub.GetState, hg, hb, hr], hc, ho⟩
  · intro ctx call h
    rcases h with hq | ⟨err, herr⟩
    · cases call <;> simp [Call.isQuery] at hq <;> simp [invoke]
    · exact invoke_error_stub ctx call err herr

theorem owner_tracking_witness :
    (∀ k, emptyStub.state k = none) ∧ (run emptyStub sampleHistory).Live "a1" ∧
    lastOwner "a1" emptyStub none sampleHistory = some "bob" ∧
    ∃ r caller, ReadAsset ⟨run emptyStub sampleHistory, .ok "erin"⟩ "a1" = .ok r ∧
      lastOwner "a1" emptyStub none sampleHistory = some caller ∧ r.Owner = caller :=
  ⟨fun _ => rfl, ⟨_, rfl⟩, by decide,
    (owner_tracking emptyStub sampleHistory "a1" (.ok "erin") (fun _ => rfl) ⟨_, rfl⟩).1⟩

/-- C12. Absent and live: across any call a key goes from absent to live only if the call
is a successful `CreateAsset` on that key with role `"producer"`, and from live to absent
only if it is a successful `DeleteAsset` on that key with role `"producer"`;
`UpdateStage`, `ReadAsset` and `AssetExists` never change which keys are live; and
`UpdateStage` and `ReadAsset` fail on an absent id. -/
theorem live_transitions (ctx : TransactionContext) (call : Call)
    (key assetID newStage userRole : String) :
    (ctx.stub.Absent key → (invoke ctx call).2.Live key →
      (invoke ctx call).1 = .ok .unit ∧
      ∃ productType quantity unit origin,
        call = .CreateAsset key productType quantity unit origin "producer") ∧
    (ctx.stub.Live key → (invoke ctx call).2.Absent key →
      (invoke ctx call).1 = .ok .unit ∧ call = .DeleteAsset key "producer") ∧
    ((UpdateStage ctx assetID newStage userRole).2.Live key ↔ ctx.stub.Live key) ∧
    ((invoke ctx (.ReadAsset assetID)).2.Live key ↔ ctx.stub.Live key) ∧
    ((invoke ctx (.AssetExists assetID)).2.Live key ↔ ctx.stub.Live key) ∧
    (ctx.stub.Absent assetID →
      (∃ err, (UpdateStage ctx assetID newStage userRole).1 = .error err) ∧
      ReadAsset ctx assetID = .error ⟨.NotFound, "asset " ++ assetID ++ " not found"⟩) := by
  refine ⟨?_, ?_, ?_, ?_, ?_, ?_⟩
  · intro habs hlive
    obtain ⟨-, hnone⟩ := (Absent_iff _ _).1 habs
    obtain ⟨-, b, hb⟩ := (Live_iff _ _).1 hlive
    cases call with
    | CreateAsset id productType quantity unit origin role =>
      rcases CreateAsset_cases ctx id productType quantity unit origin role with
        ⟨e, h, -⟩ | ⟨hr, -, bytes, h, -⟩
      · simp [invoke, h, hnone] at hb
      · by_cases hk : key = id
        · subst hk
          subst hr
          exact ⟨by simp [invoke, h, Except.map], productType, quantity, unit, origin, rfl⟩
        · simp [invoke, h, Function.update, hk, hnone] at hb
    | DeleteAsset id role =>
      rcases DeleteAsset_cases ctx id role with ⟨e, h, -⟩ | ⟨-, h, -⟩
      · simp [invoke, h, hnone] at hb
      · by_cases hk : key = id
        · subst hk
          simp [invoke, h] at hb
        · simp [invoke, h, Function.update, hk, hnone] at hb
    | UpdateStage id stage role =>
      rcases UpdateStage_cases ctx id stage role with
        ⟨e, h, -⟩ | ⟨-, asset, clientID, bytes, hread, -, h, -⟩
      · simp [invoke, h, hnone] at hb
      · by_cases hk : key = id
        · subst hk
          have : ReadAsset ctx key = .error ⟨.NotFound, "asset " ++ key ++ " not found"⟩ := by
            unfold Stub.Absent at habs
            simp [ReadAsset, habs]
          rw [this] at hread
          cases hread
        · simp [invoke, h, Function.update, hk, hnone] at hb
    | ReadAsset id => simp [invoke, hnone] at hb
    | AssetExists id => simp [invoke, hnone] at hb
  · intro hlive habs
    obtain ⟨-, b, hb⟩ := (Live_iff _ _).1 hlive
    obtain ⟨-, hnone⟩ := (Absent_iff _ _).1 habs
    cases call with
    | CreateAsset id productType quantity unit origin role =>
      rcases CreateAsset_cases ctx id productType quantity unit origin role with
        ⟨e, h, -⟩ | ⟨-, -, bytes, h, -⟩
      · simp [invoke, h, hb] at hnone
      · by_cases hk : key = id
        · subst hk
          simp [invoke, h] at hnone
        · simp [invoke, h, Function.update, hk, hb] at hnone
    | DeleteAsset id role =>
      rcases DeleteAsset_cases ctx id role with ⟨e, h, -⟩ | ⟨hr, h, -⟩
      · simp [invoke, h, hb] at hnone
      · by_cases hk : key = id
        · subst hk
          subst hr
          exact ⟨by simp [invoke, h, Except.map], rfl⟩
        · simp [invoke, h, Function.update, hk, hb] at hnone
    | UpdateStage id stage role =>
      rcases UpdateStage_cases ctx id stage role with
        ⟨e, h, -⟩ | ⟨-, asset, clientID, bytes, -, -, h, -⟩
      · simp [invoke, h, hb] at hnone
      · by_cases hk : key = id
        · subst hk
          simp [invoke, h] at hnone
        · simp [invoke, h, Function.update, hk, hb] at hnone
    | ReadAsset id => simp [invoke, hb] at hnone
    | AssetExists id => simp [invoke, hb] at hnone
  · rcases UpdateStage_cases ctx assetID newStage userRole with
      ⟨e, h, -⟩ | ⟨-, asset, clientID, bytes, hread, -, h, -⟩
    · rw [h]
    · rw [h, Live_iff, Live_iff]
      have hg : ctx.stub.getFault assetID = none := by
        rcases hg : ctx.stub.getFault assetID with _ | e
        · rfl
        · simp [ReadAsset, Stub.GetState, hg] at hread
      have hs : ∃ b, ctx.stub.state assetID = some b := by
        rcases hs : ctx.stub.state assetID with _ | b
        · simp [ReadAsset, Stub.GetState, hg, hs] at hread
        · exact ⟨b, rfl⟩
      by_cases hk : key = assetID
      · subst hk
        simp [hg, hs]
      · simp [Function.update, hk]
  · simp [invoke]
  · simp [invoke]
  · intro habs
    unfold Stub.Absent at habs
    have hread : ReadAsset ctx assetID =
        .error ⟨.NotFound, "asset " ++ assetID ++ " not found"⟩ := by
      simp [ReadAsset, habs]
    refine ⟨?_, hread⟩
    rcases UpdateStage_cases ctx assetID newStage userRole with
      ⟨e, h, -⟩ | ⟨-, asset, clientID, bytes, hread2, -, -, -⟩
    · exact ⟨e, by rw [h]⟩
    · rw [hread] at hread2
      cases hread2

theorem live_transitions_witness :
    emptyStub.Absent "a1" ∧
    (invoke (asCaller emptyStub "alice")
      (.CreateAsset "a1" "apple" one "kg" "IT" "producer")).2.Live "a1" ∧
    (invoke (asCaller emptyStub "alice")
      (.CreateAsset "a1" "apple" one "kg" "IT" "producer")).1 = .ok .unit ∧
    ∃ productType quantity unit origin,
      Call.CreateAsset "a1" "apple" one "kg" "IT" "producer" =
        .CreateAsset "a1" productType quantity unit origin "producer" :=
  ⟨rfl, ⟨_, rfl⟩,
    (live_transitions (asCaller emptyStub "alice")
      (.CreateAsset "a1" "apple" one "kg" "IT" "producer") "a1" "a1" "Shipped" "logistics").1
      rfl ⟨_, rfl⟩⟩

/-! ## The failures of CreateAsset, and retries -/

/-- C13, as stated, fails: on the empty store, whose lookups and writes all succeed,
`"a1"` is absent, yet `CreateAsset` with role `"producer"` fails for the quantity `NaN`,
with the error of `json.Marshal`, and fails for a caller whose identity lookup fails, with
the error of that lookup; neither is AccessDenied, AlreadyExists or a store failure. -/
theorem CreateAsset_fails_on_NaN_and_identity :
    emptyStub.Absent "a1" ∧ emptyStub.getFault "a1" = none ∧
    (∀ bytes, emptyStub.putFault "a1" bytes = none) ∧
    CreateAsset (asCaller emptyStub "alice") "a1" "apple" nan "kg" "IT" "producer" =
      (.error ⟨.MarshalFailure, "json: unsupported value"⟩, emptyStub) ∧
    CreateAsset ⟨emptyStub, .error "no certificate"⟩ "a1" "apple" one "kg" "IT" "producer" =
      (.error ⟨.IdentityFailure, "no certificate"⟩, emptyStub) :=
  ⟨rfl, rfl, fun _ => rfl, rfl, rfl⟩

/-- C13, amended. The failures of `CreateAsset` are AccessDenied, AlreadyExists, a store
failure, a failure of the identity lookup and a failure to serialise the record: on an
absent id and with role `"producer"` it succeeds whenever the store accepts the write, the
identity lookup succeeds and the quantity is finite; it fails with the error of the
identity lookup when that fails, and with the error of `json.Marshal` when the quantity is
`NaN` or infinite. -/
theorem CreateAsset_failures (ctx : TransactionContext) (assetID productType : String)
    (quantity : Float64) (unit origin userRole : String) :
    (∀ err, (CreateAsset ctx assetID productType quantity unit origin userRole).1 = .error err →
      err.kind = .AccessDenied ∨ err.kind = .AlreadyExists ∨ err.kind = .StoreFailure ∨
      err.kind = .IdentityFailure ∨ err.kind = .MarshalFailure) ∧
    (ctx.stub.Absent assetID → (∀ bytes, ctx.stub.putFault assetID bytes = none) →
      (∃ caller, ctx.clientIdentity = .ok caller) → quantity.isFinite = true →
      (CreateAsset ctx assetID productType quantity unit origin "producer").1 = .ok ()) ∧
    (ctx.stub.Absent assetID → ∀ msg, ctx.clientIdentity = .error msg →
      CreateAsset ctx assetID productType quantity unit origin "producer" =
        (.error ⟨.IdentityFailure, msg⟩, ctx.stub)) ∧
    (ctx.stub.Absent assetID → (∃ caller, ctx.clientIdentity = .ok caller) →
      quantity.isFinite = false →
      CreateAsset ctx assetID productType quantity unit origin "producer" =
        (.error unsupportedValueError, ctx.stub)) := by
  refine ⟨?_, ?_, ?_, ?_⟩
  · intro err herr
    by_cases hr : userRole = "producer"
    swap
    · simp [CreateAsset, hr] at herr
      rw [← herr]
      simp
    rcases hg : ctx.stub.getFault assetID with _ | e
    swap
    · simp [CreateAsset, AssetExists, Stub.GetState, hr, hg] at herr
      rw [← herr]
      simp
    rcases hs : ctx.stub.state assetID with _ | b
    swap
    · simp [CreateAsset, AssetExists, Stub.GetState, hr, hg, hs] at herr
      rw [← herr]
      simp
    rcases hc : ctx.clientIdentity with e | clientID
    · simp [CreateAsset, AssetExists, Stub.GetState, TransactionContext.GetID, hr, hg, hs,
        hc] at herr
      rw [← herr]
      simp
    rcases hm : Marshal ⟨assetID, productType, quantity, unit, origin, "Raccolto", clientID⟩
      with e | bytes
    · simp [CreateAsset, AssetExists, Stub.GetState, TransactionContext.GetID, hr, hg, hs,
        hc, hm] at herr
      rw [← herr, Marshal_error _ _ hm]
      simp [unsupportedValueError]
    rcases hp : ctx.stub.putFault assetID bytes with _ | e
    · simp [CreateAsset, AssetExists, Stub.GetState, TransactionContext.GetID, Stub.PutState,
        hr, hg, hs, hc, hm, hp] at herr
    · simp [CreateAsset, AssetExists, Stub.GetState, TransactionContext.GetID, Stub.PutState,
        hr, hg, hs, hc, hm, hp] at herr
      rw [← herr]
      simp
  · rintro habs hput ⟨caller, hc⟩ hfin
    unfold Stub.Absent at habs
    simp [CreateAsset, AssetExists, habs, TransactionContext.GetID, hc, Marshal, hfin,
      Stub.PutState, hput]
  · intro habs msg hc
    unfold Stub.Absent at habs
    simp [CreateAsset, AssetExists, habs, TransactionContext.GetID, hc]
  · rintro habs ⟨caller, hc⟩ hfin
    unfold Stub.Absent at habs
    simp [CreateAsset, AssetExists, habs, TransactionContext.GetID, hc, Marshal, hfin]

theorem CreateAsset_failures_witness :
    emptyStub.Absent "a1" ∧ (∀ bytes, emptyStub.putFault "a1" bytes = none) ∧
    (∃ caller, (asCaller emptyStub "alice").clientIdentity = .ok caller) ∧
    one.isFinite = true ∧
    (CreateAsset (asCaller emptyStub "alice") "a1" "apple" one "kg" "IT" "producer").1 =
      .ok () :=
  ⟨rfl, fun _ => rfl, ⟨"alice", rfl⟩, by decide,
    (CreateAsset_failures (asCaller emptyStub "alice") "a1" "apple" one "kg" "IT"
      "producer").2.1 rfl (fun _ => rfl) ⟨"alice", rfl⟩ (by decide)⟩

/-- C14. Retry idempotence: for every store, id, new stage, role and caller, running
`UpdateStage` a second time with the same arguments and the same caller, and running
`DeleteAsset` with role `"producer"` a second time, each leave the store as the first run
left it. -/
theorem retry_idempotent (ctx : TransactionContext) (assetID newStage userRole : String)
    (caller2 : Except String String) :
    (UpdateStage ⟨(UpdateStage ctx assetID newStage userRole).2, ctx.clientIdentity⟩
        assetID newStage userRole).2 = (UpdateStage ctx assetID newStage userRole).2 ∧
    (DeleteAsset ⟨(DeleteAsset ctx assetID "producer").2, caller2⟩ assetID "producer").2 =
      (DeleteAsset ctx assetID "producer").2 := by
  constructor
  · by_cases hok : (UpdateStage ctx assetID newStage userRole).1 = .ok ()
    · obtain ⟨hrole, hg, stored, asset, clientID, bytes, -, -, hc, hm, hp, hs⟩ :=
        UpdateStage_ok_inv ctx assetID newStage userRole hok
      have hgate : ¬ (userRole ≠ "producer" ∧ userRole ≠ "logistics") := by
        rintro ⟨h1, h2⟩
        rcases hrole with h | h
        · exact h1 h
        · exact h2 h
      have hback := Unmarshal_Marshal _ _ hm
      rw [hs]
      simp [UpdateStage, hgate, ReadAsset, Stub.GetState, hg, hback, TransactionContext.GetID,
        hc, hm, Stub.PutState, hp]
    · rcases UpdateStage_cases ctx assetID newStage userRole with
        ⟨e, h, -⟩ | ⟨-, asset, clientID, bytes, -, -, h, -⟩
      · have hctx : (⟨ctx.stub, ctx.clientIdentity⟩ : TransactionContext) = ctx := rfl
        rw [h]
        simp only
        rw [hctx, h]
      · simp [h] at hok
  · rcases DeleteAsset_cases ctx assetID "producer" with ⟨e, h, -⟩ | ⟨-, h, -⟩
    · rw [h]
      simp only
      rcases DeleteAsset_cases ⟨ctx.stub, caller2⟩ assetID "producer" with
        ⟨e2, h2, -⟩ | ⟨-, h2, -⟩
      · rw [h2]
      · have hsame : DeleteAsset ⟨ctx.stub, caller2⟩ assetID "producer" =
            DeleteAsset ctx assetID "producer" := by
          simp [DeleteAsset, AssetExists]
        rw [hsame, h] at h2
        cases h2
    · rw [h]
      rcases hg : ctx.stub.getFault assetID with _ | e <;>
        simp [DeleteAsset, AssetExists, Stub.GetState, hg]

/-! ## The two queries -/

/-- C15, as stated, fails: a stored empty JSON object carries none of the seven fields,
and a stored object with only `assetId` carries one, yet `ReadAsset` succeeds on both and
returns a record whose missing fields are zero; and `UpdateStage` with the role
`"customer"` on a key whose value is not JSON fails with AccessDenied, not Corrupt. -/
theorem ReadAsset_accepts_missing_fields :
    ReadAsset (asCaller (stubHolding "a1" emptyObject) "bob") "a1" =
      .ok ⟨"", "", Float64.zero, "", "", "", ""⟩ ∧
    ReadAsset (asCaller (stubHolding "a1" (.json (.object [("assetId", .string "a1")]))) "bob")
        "a1" = .ok ⟨"a1", "", Float64.zero, "", "", "", ""⟩ ∧
    ReadAsset (asCaller (stubHolding "a1" .malformed) "bob") "a1" =
      .error ⟨.Corrupt, "json: syntax error"⟩ ∧
    (UpdateStage (asCaller (stubHolding "a1" .malformed) "bob") "a1" "Shipped" "customer").1 =
      .error ⟨.AccessDenied, "Access Denied"⟩ := by
  refine ⟨by decide, by decide, by decide, by decide⟩

/-- C15, amended. `ReadAsset` fails with NotFound exactly when the store holds no value
for the id; when a value is present it returns what `json.Unmarshal` makes of it, which is
either an error tagged Corrupt or the decoded record, and no field is required for the
latter: bytes that are not JSON are rejected, the empty object decodes to the zero record,
an object with the id alone to the record with that id and every other field zero.
`UpdateStage` with a permitted role on a key whose value is Corrupt fails with that error
and hands back the store it was given. -/
theorem ReadAsset_outcomes (ctx : TransactionContext) (assetID newStage userRole : String) :
    (failsWith (ReadAsset ctx assetID) .NotFound = true ↔ ctx.stub.Absent assetID) ∧
    (∀ bytes, ctx.stub.GetState assetID = .ok (some bytes) →
      ReadAsset ctx assetID = Unmarshal bytes) ∧
    (∀ bytes err, Unmarshal bytes = .error err → err.kind = .Corrupt) ∧
    Unmarshal .malformed = .error syntaxError ∧
    Unmarshal emptyObject = .ok FoodAsset.zero ∧
    (∀ id : String, Unmarshal (.json (.object [("assetId", .string id)])) =
      .ok ⟨id, "", Float64.zero, "", "", "", ""⟩) ∧
    (∀ err, ReadAsset ctx assetID = .error err → err.kind = .Corrupt →
      (userRole = "producer" ∨ userRole = "logistics") →
      UpdateStage ctx assetID newStage userRole = (.error err, ctx.stub)) := by
  refine ⟨?_, ?_, ?_, rfl, rfl, ?_, ?_⟩
  · rw [Absent_iff]
    rcases hg : ctx.stub.getFault assetID with _ | e
    · rcases hs : ctx.stub.state assetID with _ | b
      · simp [ReadAsset, Stub.GetState, hg, hs, failsWith]
      · rcases hun : Unmarshal b with e | r
        · have hk := Unmarshal_error_kind b e hun
          simp [ReadAsset, Stub.GetState, hg, hs, hun, failsWith, hk]
        · simp [ReadAsset, Stub.GetState, hg, hs, hun, failsWith]
    · simp [ReadAsset, Stub.GetState, hg, failsWith]
  · intro bytes hget
    simp [ReadAsset, hget]
  · exact Unmarshal_error_kind
  · intro id
    simp [Unmarshal, unmarshalMember, storeString, foldName_tags.1, FoodAsset.zero]
  · intro err hread _ hrole
    have hgate : ¬ (userRole ≠ "producer" ∧ userRole ≠ "logistics") := by
      rintro ⟨h1, h2⟩
      rcases hrole with h | h
      · exact h1 h
      · exact h2 h
    simp [UpdateStage, hgate, hread]

theorem ReadAsset_outcomes_witness :
    ReadAsset (asCaller (stubHolding "a1" .malformed) "bob") "a1" = .error syntaxError ∧
    syntaxError.kind = .Corrupt ∧ ("logistics" = "producer" ∨ "logistics" = "logistics") ∧
    UpdateStage (asCaller (stubHolding "a1" .malformed) "bob") "a1" "Shipped" "logistics" =
      (.error syntaxError, stubHolding "a1" .malformed) :=
  ⟨by decide, rfl, by decide,
    (ReadAsset_outcomes (asCaller (stubHolding "a1" .malformed) "bob") "a1" "Shipped"
      "logistics").2.2.2.2.2.2 syntaxError (by decide) rfl (by decide)⟩

/-- C16, as stated, fails: on a store whose lookup fails, `AssetExists` does not return
true although `ReadAsset` does not fail with NotFound; both return the error of the
store. -/
theorem AssetExists_not_true_on_store_failure :
    AssetExists (asCaller unreachableStub "bob") "a1" =
      .error ⟨.StoreFailure, "peer unavailable"⟩ ∧
    AssetExists (asCaller unreachableStub "bob") "a1" ≠ .ok true ∧
    ReadAsset (asCaller unreachableStub "bob") "a1" =
      .error ⟨.StoreFailure, "peer unavailable"⟩ ∧
    failsWith (ReadAsset (asCaller unreachableStub "bob") "a1") .NotFound = false := by
  refine ⟨by decide, by decide, by decide, by decide⟩

/-- C16, amended. `ReadAsset` and `AssetExists` are read-only and unrestricted: they hand
back the store they were given whatever they return, and their result does not depend on
the caller (they have no role parameter); `AssetExists` returns true if and only if the
lookup of the id yields a value, and false if and only if `ReadAsset` fails with NotFound;
so, provided the lookup itself does not fail, it returns true if and only if `ReadAsset`
does not fail with NotFound. -/
theorem queries_read_only (ctx : TransactionContext) (assetID : String)
    (caller2 : Except String String) :
    (invoke ctx (.ReadAsset assetID)).2 = ctx.stub ∧
    (invoke ctx (.AssetExists assetID)).2 = ctx.stub ∧
    ReadAsset ⟨ctx.stub, caller2⟩ assetID = ReadAsset ctx assetID ∧
    AssetExists ⟨ctx.stub, caller2⟩ assetID = AssetExists ctx assetID ∧
    (AssetExists ctx assetID = .ok true ↔ ctx.stub.Live assetID) ∧
    (AssetExists ctx assetID = .ok false ↔
      failsWith (ReadAsset ctx assetID) .NotFound = true) ∧
    (ctx.stub.getFault assetID = none →
      (AssetExists ctx assetID = .ok true ↔
        failsWith (ReadAsset ctx assetID) .NotFound = false)) := by
  refine ⟨rfl, rfl, rfl, rfl, ?_, ?_, ?_⟩
  · rw [Live_iff]
    rcases hg : ctx.stub.getFault assetID with _ | e
    · rcases hs : ctx.stub.state assetID with _ | b <;>
        simp [AssetExists, Stub.GetState, hg, hs]
    · simp [AssetExists, Stub.GetState, hg]
  · rcases hg : ctx.stub.getFault assetID with _ | e
    · rcases hs : ctx.stub.state assetID with _ | b
      · simp [AssetExists, ReadAsset, Stub.GetState, hg, hs, failsWith]
      · rcases hun : Unmarshal b with e | r
        · have hk := Unmarshal_error_kind b e hun
          simp [AssetExists, ReadAsset, Stub.GetState, hg, hs, hun, failsWith, hk]
        · simp [AssetExists, ReadAsset, Stub.GetState, hg, hs, hun, failsWith]
    · simp [AssetExists, ReadAsset, Stub.GetState, hg, failsWith]
  · intro hg
    rcases hs : ctx.stub.state assetID with _ | b
    · simp [AssetExists, ReadAsset, Stub.GetState, hg, hs, failsWith]
    · rcases hun : Unmarshal b with e | r
      · have hk := Unmarshal_error_kind b e hun
        simp [AssetExists, ReadAsset, Stub.GetState, hg, hs, hun, failsWith, hk]
      · simp [AssetExists, ReadAsset, Stub.GetState, hg, hs, hun, failsWith]

theorem queries_read_only_witness :
    stubWithApple.getFault "a1" = none ∧
    AssetExists (asCaller stubWithApple "bob") "a1" = .ok true ∧
    failsWith (ReadAsset (asCaller stubWithApple "bob") "a1") .NotFound = false :=
  ⟨rfl, by decide,
    ((queries_read_only (asCaller stubWithApple "bob") "a1" (.ok "carol")).2.2.2.2.2.2 rfl).1
      (by decide)⟩

/-! ## Keys, callers and frames -/

/-- With another caller `UpdateStage` succeeds as well, on a store whose verdict on a write
to the id does not depend on the bytes written. -/
theorem UpdateStage_ok_other_caller (s : Stub) (assetID newStage userRole c1 c2 : String)
    (hput : ∀ b1 b2, s.putFault assetID b1 = s.putFault assetID b2)
    (h : (UpdateStage ⟨s, .ok c1⟩ assetID newStage userRole).1 = .ok ()) :
    (UpdateStage ⟨s, .ok c2⟩ assetID newStage userRole).1 = .ok () := by
  obtain ⟨hrole, hg, stored, asset, clientID, bytes, hs, hun, -, -, hp, -⟩ :=
    UpdateStage_ok_inv ⟨s, .ok c1⟩ assetID newStage userRole h
  have hgate : ¬ (userRole ≠ "producer" ∧ userRole ≠ "logistics") := by
    rintro ⟨h1, h2⟩
    rcases hrole with h | h
    · exact h1 h
    · exact h2 h
  have hfin : asset.Quantity.isFinite = true := Unmarshal_finite stored asset hun
  simp only at hg hs hp
  have hp2 : ∀ b, s.putFault assetID b = none := fun b => (hput b bytes).trans hp
  simp [UpdateStage, hgate, ReadAsset, Stub.GetState, hg, hs, hun, TransactionContext.GetID,
    Marshal, hfin, Stub.PutState, hp2]

/-- C18, as stated, fails: on a store that refuses values above a size limit,
`UpdateStage` on `"a1"` succeeds for the caller `"bob"` and fails for a caller with a
longer identity, and the two final stores then differ in `CurrentStage` as well. -/
theorem UpdateStage_success_depends_on_caller :
    (UpdateStage (asCaller (withSizeLimit stubWithApple 30) "bob") "a1" "Shipped"
      "logistics").1 = .ok () ∧
    (UpdateStage (asCaller (withSizeLimit stubWithApple 30) "bartholomew-of-the-long-name")
      "a1" "Shipped" "logistics").1 = .error ⟨.StoreFailure, "value too large"⟩ ∧
    ReadAsset ⟨(UpdateStage (asCaller (withSizeLimit stubWithApple 30) "bob") "a1" "Shipped"
      "logistics").2, .ok "erin"⟩ "a1" =
      .ok ⟨"a1", "apple", one, "kg", "IT", "Shipped", "bob"⟩ ∧
    ReadAsset ⟨(UpdateStage (asCaller (withSizeLimit stubWithApple 30)
      "bartholomew-of-the-long-name") "a1" "Shipped" "logistics").2, .ok "erin"⟩ "a1" =
      .ok ⟨"a1", "apple", one, "kg", "IT", "Raccolto", "alice"⟩ := by
  refine ⟨by decide, by decide, by decide, by decide⟩

/-- C18, amended. No ownership check: `DeleteAsset` returns the same result and the same
final store whoever calls; on a store whose verdict on a write to the id does not depend
on the bytes written, `UpdateStage` succeeds under one caller if and only if it succeeds
under another; the two final stores agree on every other key, and when both calls succeed
the records they leave under the id differ at most in `Owner`; in particular, with a
permitted role and a store that accepts the operation, a caller updates or deletes a
record whoever its current owner is. -/
theorem no_ownership_check (s : Stub) (assetID newStage userRole c1 c2 : String)
    (i1 i2 reader : Except String String) :
    DeleteAsset ⟨s, i1⟩ assetID userRole = DeleteAsset ⟨s, i2⟩ assetID userRole ∧
    ((∀ b1 b2, s.putFault assetID b1 = s.putFault assetID b2) →
      ((UpdateStage ⟨s, .ok c1⟩ assetID newStage userRole).1 = .ok () ↔
        (UpdateStage ⟨s, .ok c2⟩ assetID newStage userRole).1 = .ok ())) ∧
    (∀ k, k ≠ assetID →
      (UpdateStage ⟨s, .ok c1⟩ assetID newStage userRole).2.state k =
        (UpdateStage ⟨s, .ok c2⟩ assetID newStage userRole).2.state k) ∧
    ((UpdateStage ⟨s, .ok c1⟩ assetID newStage userRole).1 = .ok () →
      (UpdateStage ⟨s, .ok c2⟩ assetID newStage userRole).1 = .ok () →
      ∃ r : FoodAsset,
        ReadAsset ⟨(UpdateStage ⟨s, .ok c1⟩ assetID newStage userRole).2, reader⟩ assetID =
          .ok { r with Owner := c1 } ∧
        ReadAsset ⟨(UpdateStage ⟨s, .ok c2⟩ assetID newStage userRole).2, reader⟩ assetID =
          .ok { r with Owner := c2 }) ∧
    (∀ r, ReadAsset ⟨s, reader⟩ assetID = .ok r →
      (userRole = "producer" ∨ userRole = "logistics") →
      (∀ bytes, s.putFault assetID bytes = none) →
      (UpdateStage ⟨s, .ok c1⟩ assetID newStage userRole).1 = .ok ()) ∧
    (s.Live assetID → s.delFault assetID = none →
      (DeleteAsset ⟨s, i1⟩ assetID "producer").1 = .ok ()) := by
  refine ⟨rfl, ?_, ?_, ?_, ?_, ?_⟩
  · intro hput
    exact ⟨UpdateStage_ok_other_caller s assetID newStage userRole c1 c2 hput,
      UpdateStage_ok_other_caller s assetID newStage userRole c2 c1 hput⟩
  · intro k hk
    have h1 := invoke_state_other ⟨s, .ok c1⟩ (.UpdateStage assetID newStage userRole) k hk
    have h2 := invoke_state_other ⟨s, .ok c2⟩ (.UpdateStage assetID newStage userRole) k hk
    simp only [invoke] at h1 h2
    rw [h1, h2]
  · intro h1 h2
    obtain ⟨-, hg, stored, asset, clientID, bytes, hs, hun, hc, hm, -, hrun⟩ :=
      UpdateStage_ok_inv ⟨s, .ok c1⟩ assetID newStage userRole h1
    obtain ⟨-, -, stored2, asset2, clientID2, bytes2, hs2, hun2, hc2, hm2, -, hrun2⟩ :=
      UpdateStage_ok_inv ⟨s, .ok c2⟩ assetID newStage userRole h2
    simp only at hg hs hs2 hc hc2
    cases hc
    cases hc2
    rw [hs] at hs2
    cases hs2
    rw [hun] at hun2
    cases hun2
    refine ⟨{ asset with CurrentStage := newStage }, ?_, ?_⟩
    · rw [hrun]
      simp [ReadAsset, Stub.GetState, hg, Unmarshal_Marshal _ _ hm]
    · rw [hrun2]
      simp [ReadAsset, Stub.GetState, hg, Unmarshal_Marshal _ _ hm2]
  · intro r hread hrole hput
    have hgate : ¬ (userRole ≠ "producer" ∧ userRole ≠ "logistics") := by
      rintro ⟨h1, h2⟩
      rcases hrole with h | h
      · exact h1 h
      · exact h2 h
    have hread2 : ReadAsset ⟨s, .ok c1⟩ assetID = .ok r := hread
    have hfin : r.Quantity.isFinite = true := by
      rcases hg : s.getFault assetID with _ | e
      · rcases hs : s.state assetID with _ | b
        · simp [ReadAsset, Stub.GetState, hg, hs] at hread
        · simp only [ReadAsset, Stub.GetState, hg, hs] at hread
          exact Unmarshal_finite b r hread
      · simp [ReadAsset, Stub.GetState, hg] at hread
    simp [UpdateStage, hgate, hread2, TransactionContext.GetID, Marshal, hfin, Stub.PutState,
      hput]
  · intro hlive hdel
    obtain ⟨hg, b, hb⟩ := (Live_iff _ _).1 hlive
    simp [DeleteAsset, AssetExists, Stub.GetState, Stub.DelState, hg, hb, hdel]

theorem no_ownership_check_witness :
    ReadAsset ⟨stubWithApple, .ok "erin"⟩ "a1" = .ok apple ∧ apple.Owner ≠ "bob" ∧
    ("logistics" = "producer" ∨ "logistics" = "logistics") ∧
    (∀ bytes, stubWithApple.putFault "a1" bytes = none) ∧
    (UpdateStage ⟨stubWithApple, .ok "bob"⟩ "a1" "Shipped" "logistics").1 = .ok () :=
  ⟨by decide, by decide, by decide, fun _ => rfl,
    (no_ownership_check stubWithApple "a1" "Shipped" "logistics" "bob" "carol" (.ok "bob")
      (.ok "carol") (.ok "erin")).2.2.2.2.1 apple (by decide) (by decide) (fun _ => rfl)⟩

/-- C19. Single-key frame: for every call on an asset id, every store and every key other
than that id, the value (or absence) at the key after the call is the same as before it,
and so is the answer of the store to a lookup of the key, whether the call succeeds or
fails. -/
theorem single_key_frame (ctx : TransactionContext) (call : Call) (key : String)
    (h : key ≠ call.assetID) :
    (invoke ctx call).2.state key = ctx.stub.state key ∧
    (invoke ctx call).2.GetState key = ctx.stub.GetState key := by
  have hs := invoke_state_other ctx call key h
  have hf := (invoke_faults ctx call).1
  exact ⟨hs, by simp [Stub.GetState, hs, hf]⟩

theorem single_key_frame_witness :
    "a1" ≠ (Call.CreateAsset "a2" "pear" two "t" "FR" "producer").assetID ∧
    (invoke (asCaller stubWithApple "bob")
      (.CreateAsset "a2" "pear" two "t" "FR" "producer")).2.GetState "a1" =
      stubWithApple.GetState "a1" :=
  ⟨by decide,
    (single_key_frame (asCaller stubWithApple "bob")
      (.CreateAsset "a2" "pear" two "t" "FR" "producer") "a1" (by decide)).2⟩

namespace Wire

/-! ## UTF-8: decoding what was encoded -/

theorem byte_val (n : Nat) : (byte n).val = n % 256 := rfl

theorem char_range (c : Char) :
    c.toNat < 0xD800 ∨ (0xDFFF < c.toNat ∧ c.toNat < 0x110000) := c.valid

theorem decodeRune_encodeRune (c : Char) (rest : GoString) :
    decodeRune (encodeRune c ++ rest) = (c, (encodeRune c).length) := by
  have hc := char_range c
  have hof : ∀ n, n = c.toNat → Char.ofNat n = c := by
    intro n hn
    rw [hn]
    exact Char.ofNat_toNat c
  unfold encodeRune
  split_ifs with h1 h2 h3
  · have e : c.toNat % 256 = c.toNat := by omega
    simp [decodeRune, byte_val, e, h1, hof]
  · have e0 : (0xC0 + c.toNat / 64) % 256 = 0xC0 + c.toNat / 64 := by omega
    have e1 : (0x80 + c.toNat % 64) % 256 = 0x80 + c.toNat % 64 := by omega
    have g0 : ¬ (0xC0 + c.toNat / 64 < 0x80) := by omega
    have g1 : 0xC2 ≤ 0xC0 + c.toNat / 64 ∧ 0xC0 + c.toNat / 64 ≤ 0xDF := by omega
    have g2 : 0x80 ≤ 0x80 + c.toNat % 64 ∧ 0x80 + c.toNat % 64 ≤ 0xBF := by omega
    simp only [List.cons_append, List.nil_append, decodeRune, byte_val, e0, e1, g0, g1,
      continuation, g2, if_true, if_false, and_self, decide_True, Bool.and_self,
      List.length_cons, List.length_nil]
    rw [hof _ (by omega)]
  · have e0 : (0xE0 + c.toNat / 4096) % 256 = 0xE0 + c.toNat / 4096 := by omega
    have e1 : (0x80 + c.toNat / 64 % 64) % 256 = 0x80 + c.toNat / 64 % 64 := by omega
    have e2 : (0x80 + c.toNat % 64) % 256 = 0x80 + c.toNat % 64 := by omega
    have g0 : ¬ (0xE0 + c.toNat / 4096 < 0x80) := by omega
    have g1 : ¬ (0xC2 ≤ 0xE0 + c.toNat / 4096 ∧ 0xE0 + c.toNat / 4096 ≤ 0xDF) := by omega
    have g2 : 0xE0 ≤ 0xE0 + c.toNat / 4096 ∧ 0xE0 + c.toNat / 4096 ≤ 0xEF := by omega
    have g3 : (if 0xE0 + c.toNat / 4096 = 0xE0 then 0xA0 else 0x80) ≤
          0x80 + c.toNat / 64 % 64 ∧
        0x80 + c.toNat / 64 % 64 ≤ (if 0xE0 + c.toNat / 4096 = 0xED then 0x9F else 0xBF) ∧
        ((0x80 ≤ 0x80 + c.toNat % 64 ∧ 0x80 + c.toNat % 64 ≤ 0xBF)) := by
      split_ifs <;> omega
    have g4 : continuation (byte (0x80 + c.toNat % 64)) = true := by
      simp only [continuation, byte_val, e2]
      simp
      omega
    simp only [List.cons_append, List.nil_append, decodeRune, byte_val, e0, e1, e2, g0, g1, g2,
      g3.1, g3.2.1, g4, if_true, if_false, and_self, List.length_cons, List.length_nil]
    rw [hof _ (by omega)]
  · have e0 : (0xF0 + c.toNat / 262144) % 256 = 0xF0 + c.toNat / 262144 := by omega
    have e1 : (0x80 + c.toNat / 4096 % 64) % 256 = 0x80 + c.toNat / 4096 % 64 := by omega
    have e2 : (0x80 + c.toNat / 64 % 64) % 256 = 0x80 + c.toNat / 64 % 64 := by omega
    have e3 : (0x80 + c.toNat % 64) % 256 = 0x80 + c.toNat % 64 := by omega
    have g0 : ¬ (0xF0 + c.toNat / 262144 < 0x80) := by omega
    have g1 : ¬ (0xC2 ≤ 0xF0 + c.toNat / 262144 ∧ 0xF0 + c.toNat / 262144 ≤ 0xDF) := by omega
    have g2 : ¬ (0xE0 ≤ 0xF0 + c.toNat / 262144 ∧ 0xF0 + c.toNat / 262144 ≤ 0xEF) := by omega
    have g3 : 0xF0 ≤ 0xF0 + c.toNat / 262144 ∧ 0xF0 + c.toNat / 262144 ≤ 0xF4 := by omega
    have g4 : (if 0xF0 + c.toNat / 262144 = 0xF0 then 0x90 else 0x80) ≤
          0x80 + c.toNat / 4096 % 64 ∧
        0x80 + c.toNat / 4096 % 64 ≤
          (if 0xF0 + c.toNat / 262144 = 0xF4 then 0x8F else 0xBF) := by
      split_ifs <;> omega
    have g5 : continuation (byte (0x80 + c.toNat / 64 % 64)) = true := by
      simp only [continuation, byte_val, e2]
      simp
      omega
    have g6 : continuation (byte (0x80 + c.toNat % 64)) = true := by
      simp only [continuation, byte_val, e3]
      simp
      omega
    simp only [List.cons_append, List.nil_append, decodeRune, byte_val, e0, e1, e2, e3, g0, g1,
      g2, g3, g4.1, g4.2, g5, g6, if_true, if_false, and_self, List.length_cons,
      List.length_nil]
    rw [hof _ (by omega)]


theorem encodeRune_ne_nil (c : Char) : ∃ b tail, encodeRune c = b :: tail := by
  unfold encodeRune
  split_ifs <;> exact ⟨_, _, rfl⟩

theorem decodeRunes_utf8 (chars : List Char) (fuel : Nat)
    (h : (chars.flatMap encodeRune).length ≤ fuel) :
    decodeRunes fuel (chars.flatMap encodeRune) = chars := by
  induction chars generalizing fuel with
  | nil => cases fuel <;> simp [decodeRunes]
  | cons c cs ih =>
    obtain ⟨b, tail, hb⟩ := encodeRune_ne_nil c
    have hd := decodeRune_encodeRune c (cs.flatMap encodeRune)
    simp only [List.flatMap_cons] at h ⊢
    rw [hb] at hd h ⊢
    cases fuel with
    | zero => simp at h
    | succ f =>
      simp only [List.cons_append] at hd h ⊢
      simp only [decodeRunes, hd]
      have hdrop : (b :: (tail ++ cs.flatMap encodeRune)).drop (b :: tail).length =
          cs.flatMap encodeRune := by
        rw [← List.cons_append, List.drop_left]
      rw [hdrop, ih f (by simp only [List.length_cons, List.length_append] at h; omega)]

/-- Text survives its UTF-8 encoding: decoding the encoding of a text gives the text. -/
theorem textOf_utf8 (text : String) : textOf (utf8 text) = text := by
  unfold textOf utf8
  rw [decodeRunes_utf8 _ _ (le_refl _)]

/-- A well-formed Go string is left alone by the round trip through JSON. -/
theorem toValidUTF8_of_WellFormed (s : GoString) (h : WellFormed s) : toValidUTF8 s = s := by
  obtain ⟨text, rfl⟩ := h
  unfold toValidUTF8
  rw [textOf_utf8]

end Wire

namespace Wire

/-! ## encoding/json on byte strings -/

theorem text_ofText (a : SafeFoodChain.FoodAsset) : (FoodAsset.ofText a).text = a := by
  cases a
  simp [FoodAsset.ofText, FoodAsset.text, textOf_utf8]

theorem wire_Marshal_ok (asset : FoodAsset) (bytes : Bytes) :
    Marshal asset = .ok bytes ↔ SafeFoodChain.Marshal asset.text = .ok bytes := by
  unfold Marshal
  rcases SafeFoodChain.Marshal asset.text with e | b <;> simp

theorem wire_Unmarshal_ok (bytes : Bytes) (asset : FoodAsset) :
    Unmarshal bytes = .ok asset ↔
      ∃ t, SafeFoodChain.Unmarshal bytes = .ok t ∧ asset = FoodAsset.ofText t := by
  unfold Unmarshal
  rcases SafeFoodChain.Unmarshal bytes with e | t
  · simp
  · simp [eq_comm]

/-- What was marshalled is read back with every string field made valid UTF-8. -/
theorem wire_Unmarshal_Marshal (asset : FoodAsset) (bytes : Bytes)
    (h : Marshal asset = .ok bytes) : Unmarshal bytes = .ok (FoodAsset.ofText asset.text) :=
  (wire_Unmarshal_ok _ _).2
    ⟨asset.text, SafeFoodChain.Unmarshal_Marshal _ _ ((wire_Marshal_ok _ _).1 h), rfl⟩

/-- A record with a finite quantity can be marshalled. -/
theorem wire_Marshal_of_finite (asset : FoodAsset) (h : asset.Quantity.isFinite = true) :
    ∃ bytes, Marshal asset = .ok bytes := by
  have hq : asset.text.Quantity.isFinite = true := h
  rcases hm : SafeFoodChain.Marshal asset.text with e | bytes
  · simp [SafeFoodChain.Marshal, hq] at hm
  · exact ⟨bytes, (wire_Marshal_ok _ _).2 hm⟩

/-! ## Outcomes of the three writing transactions, on byte strings -/

/-- Every outcome of `CreateAsset`: an error that leaves the stub alone, or one
successful `PutState` of the marshalled record. -/
theorem wire_CreateAsset_cases (ctx : TransactionContext) (assetID productType : GoString)
    (quantity : Float64) (unit origin userRole : GoString) :
    (∃ err, CreateAsset ctx assetID productType quantity unit origin userRole =
        (.error err, ctx.stub)) ∨
    (userRole = utf8 "producer" ∧ ctx.stub.getFault assetID = none ∧
      ∃ clientID bytes, ctx.clientIdentity = .ok clientID ∧
      Marshal ⟨assetID, productType, quantity, unit, origin, utf8 "Raccolto", clientID⟩ =
        .ok bytes ∧
      CreateAsset ctx assetID productType quantity unit origin userRole =
        (.ok (), { ctx.stub with
          state := Function.update ctx.stub.state assetID (some bytes) })) := by
  by_cases hr : userRole = utf8 "producer"
  swap
  · exact Or.inl ⟨⟨.AccessDenied, utf8 "Access Denied: only producers can create assets"⟩,
      by simp [CreateAsset, hr]⟩
  rcases hg : ctx.stub.getFault assetID with _ | e
  swap
  · exact Or.inl ⟨⟨.StoreFailure, e⟩, by simp [CreateAsset, AssetExists, Stub.GetState, hr, hg]⟩
  rcases hs : ctx.stub.state assetID with _ | b
  swap
  · exact Or.inl ⟨⟨.AlreadyExists, utf8 "asset " ++ assetID ++ utf8 " already exists"⟩,
      by simp [CreateAsset, AssetExists, Stub.GetState, hr, hg, hs]⟩
  rcases hc : ctx.clientIdentity with e | clientID
  · exact Or.inl ⟨⟨.IdentityFailure, e⟩,
      by simp [CreateAsset, AssetExists, Stub.GetState, TransactionContext.GetID, hr, hg, hs,
        hc]⟩
  rcases hm : Marshal ⟨assetID, productType, quantity, unit, origin, utf8 "Raccolto", clientID⟩
    with e | bytes
  · exact Or.inl ⟨e, by simp [CreateAsset, AssetExists, Stub.GetState,
      TransactionContext.GetID, hr, hg, hs, hc, hm]⟩
  rcases hp : ctx.stub.putFault assetID bytes with _ | e
  swap
  · exact Or.inl ⟨⟨.StoreFailure, e⟩,
      by simp [CreateAsset, AssetExists, Stub.GetState, TransactionContext.GetID, Stub.PutState,
        hr, hg, hs, hc, hm, hp]⟩
  refine Or.inr ⟨hr, ?_, clientID, bytes, ?_, hm, ?_⟩
  · rfl
  · rfl
  · simp [CreateAsset, AssetExists, Stub.GetState, TransactionContext.GetID, Stub.PutState,
      hr, hg, hs, hc, hm, hp]

/-- Every outcome of `DeleteAsset`: an error that leaves the stub alone, or one
successful `DelState`. -/
theorem wire_DeleteAsset_cases (ctx : TransactionContext) (assetID userRole : GoString) :
    (∃ err, DeleteAsset ctx assetID userRole = (.error err, ctx.stub)) ∨
    DeleteAsset ctx assetID userRole =
      (.ok (), { ctx.stub with state := Function.update ctx.stub.state assetID none }) := by
  by_cases hr : userRole = utf8 "producer"
  swap
  · exact Or.inl ⟨⟨.AccessDenied, utf8 "Access Denied: only producers can delete assets"⟩,
      by simp [DeleteAsset, hr]⟩
  rcases hg : ctx.stub.getFault assetID with _ | e
  swap
  · exact Or.inl ⟨⟨.StoreFailure, e⟩, by simp [DeleteAsset, AssetExists, Stub.GetState, hr, hg]⟩
  rcases hs : ctx.stub.state assetID with _ | b
  · exact Or.inl ⟨⟨.NotFound, utf8 "the asset " ++ assetID ++ utf8 " does not exist"⟩,
      by simp [DeleteAsset, AssetExists, Stub.GetState, hr, hg, hs]⟩
  rcases hd : ctx.stub.delFault assetID with _ | e
  swap
  · exact Or.inl ⟨⟨.StoreFailure, e⟩,
      by simp [DeleteAsset, AssetExists, Stub.GetState, Stub.DelState, hr, hg, hs, hd]⟩
  exact Or.inr (by simp [DeleteAsset, AssetExists, Stub.GetState, Stub.DelState, hr, hg, hs, hd])

/-- Every outcome of `UpdateStage`: an error that leaves the stub alone, or one
successful `PutState` of the record read, with its stage and owner replaced. -/
theorem wire_UpdateStage_cases (ctx : TransactionContext)
    (assetID newStage userRole : GoString) :
    (∃ err, UpdateStage ctx assetID newStage userRole = (.error err, ctx.stub)) ∨
    ((userRole = utf8 "producer" ∨ userRole = utf8 "logistics") ∧
      ctx.stub.getFault assetID = none ∧
      ∃ stored asset clientID bytes, ctx.stub.state assetID = some stored ∧
      Unmarshal stored = .ok asset ∧ ctx.clientIdentity = .ok clientID ∧
      Marshal { asset with CurrentStage := newStage, Owner := clientID } = .ok bytes ∧
      UpdateStage ctx assetID newStage userRole =
        (.ok (), { ctx.stub with
          state := Function.update ctx.stub.state assetID (some bytes) })) := by
  by_cases hgate : userRole ≠ utf8 "producer" ∧ userRole ≠ utf8 "logistics"
  · exact Or.inl ⟨⟨.AccessDenied, utf8 "Access Denied"⟩, by simp [UpdateStage, hgate]⟩
  have hrole : userRole = utf8 "producer" ∨ userRole = utf8 "logistics" := by
    by_contra hcon
    exact hgate ⟨fun h => hcon (Or.inl h), fun h => hcon (Or.inr h)⟩
  rcases hg : ctx.stub.getFault assetID with _ | e
  swap
  · exact Or.inl ⟨⟨.StoreFailure, e⟩,
      by simp [UpdateStage, hgate, ReadAsset, Stub.GetState, hg]⟩
  rcases hs : ctx.stub.state assetID with _ | stored
  · exact Or.inl ⟨⟨.NotFound, utf8 "asset " ++ assetID ++ utf8 " not found"⟩,
      by simp [UpdateStage, hgate, ReadAsset, Stub.GetState, hg, hs]⟩
  rcases hun : Unmarshal stored with e | asset
  · exact Or.inl ⟨e, by simp [UpdateStage, hgate, ReadAsset, Stub.GetState, hg, hs, hun]⟩
  rcases hc : ctx.clientIdentity with e | clientID
  · exact Or.inl ⟨⟨.IdentityFailure, e⟩,
      by simp [UpdateStage, hgate, ReadAsset, Stub.GetState, hg, hs, hun,
        TransactionContext.GetID, hc]⟩
  rcases hm : Marshal { asset with CurrentStage := newStage, Owner := clientID } with e | bytes
  · exact Or.inl ⟨e, by simp [UpdateStage, hgate, ReadAsset, Stub.GetState, hg, hs, hun,
      TransactionContext.GetID, hc, hm]⟩
  rcases hp : ctx.stub.putFault assetID bytes with _ | e
  swap
  · exact Or.inl ⟨⟨.StoreFailure, e⟩,
      by simp [UpdateStage, hgate, ReadAsset, Stub.GetState, hg, hs, hun,
        TransactionContext.GetID, hc, hm, Stub.PutState, hp]⟩
  refine Or.inr ⟨hrole, ?_, stored, asset, clientID, bytes, ?_, hun, ?_, hm, ?_⟩
  · rfl
  · rfl
  · rfl
  · simp [UpdateStage, hgate, ReadAsset, Stub.GetState, hg, hs, hun, TransactionContext.GetID,
      hc, hm, Stub.PutState, hp]

end Wire

namespace Wire

/-! ## CreateAsset and UpdateStage read back, on byte strings -/

/-- C2, as stated, fails, twice over: in the empty store the producer `"alice"` creates
`"a1"` successfully, yet the record read back carries the stage `"Raccolto"`, not
`"Harvested"`; and when she creates it with the product type `0xFF`, a byte that is not
valid UTF-8, the record read back carries the product type U+FFFD (`EF BF BD`), not the
product type she gave. -/
theorem wire_CreateAsset_read_back_differs :
    (CreateAsset (asCaller emptyStub "alice") (utf8 "a1") (utf8 "apple") one (utf8 "kg")
      (utf8 "IT") (utf8 "producer")).1 = .ok () ∧
    ReadAsset
        (asCaller (CreateAsset (asCaller emptyStub "alice") (utf8 "a1") (utf8 "apple") one
          (utf8 "kg") (utf8 "IT") (utf8 "producer")).2 "alice") (utf8 "a1") =
      .ok ⟨utf8 "a1", utf8 "apple", one, utf8 "kg", utf8 "IT", utf8 "Raccolto", utf8 "alice"⟩ ∧
    utf8 "Raccolto" ≠ utf8 "Harvested" ∧
    (CreateAsset (asCaller emptyStub "alice") (utf8 "a1") [0xFF] one (utf8 "kg")
      (utf8 "IT") (utf8 "producer")).1 = .ok () ∧
    ReadAsset
        (asCaller (CreateAsset (asCaller emptyStub "alice") (utf8 "a1") [0xFF] one
          (utf8 "kg") (utf8 "IT") (utf8 "producer")).2 "alice") (utf8 "a1") =
      .ok ⟨utf8 "a1", [0xEF, 0xBF, 0xBD], one, utf8 "kg", utf8 "IT", utf8 "Raccolto",
        utf8 "alice"⟩ := by
  refine ⟨by decide, by decide, by decide, by decide, by decide⟩

/-- C2, amended. If `CreateAsset` with role `"producer"` succeeds for the caller `caller`,
then `ReadAsset` on the resulting store, by any reader, succeeds and returns the record
with the given quantity, the stage `"Raccolto"`, and the given id, product type, unit and
origin and the owner `caller`, each with every byte that is not valid UTF-8 replaced by
U+FFFD; so it returns them exactly as given when they are well-formed UTF-8. -/
theorem wire_ReadAsset_after_CreateAsset (ctx : TransactionContext)
    (assetID productType : GoString) (quantity : Float64) (unit origin caller : GoString)
    (reader : Except GoString GoString)
    (hcaller : ctx.clientIdentity = .ok caller)
    (hok : (CreateAsset ctx assetID productType quantity unit origin (utf8 "producer")).1 =
      .ok ()) :
    ReadAsset ⟨(CreateAsset ctx assetID productType quantity unit origin
        (utf8 "producer")).2, reader⟩ assetID =
      .ok ⟨toValidUTF8 assetID, toValidUTF8 productType, quantity, toValidUTF8 unit,
        toValidUTF8 origin, utf8 "Raccolto", toValidUTF8 caller⟩ ∧
    (WellFormed assetID → WellFormed productType → WellFormed unit → WellFormed origin →
      WellFormed caller →
      ReadAsset ⟨(CreateAsset ctx assetID productType quantity unit origin
          (utf8 "producer")).2, reader⟩ assetID =
        .ok ⟨assetID, productType, quantity, unit, origin, utf8 "Raccolto", caller⟩) := by
  have hread : ReadAsset ⟨(CreateAsset ctx assetID productType quantity unit origin
        (utf8 "producer")).2, reader⟩ assetID =
      .ok ⟨toValidUTF8 assetID, toValidUTF8 productType, quantity, toValidUTF8 unit,
        toValidUTF8 origin, utf8 "Raccolto", toValidUTF8 caller⟩ := by
    rcases wire_CreateAsset_cases ctx assetID productType quantity unit origin (utf8 "producer")
      with ⟨err, h⟩ | ⟨-, hg, clientID, bytes, hc, hm, h⟩
    · rw [h] at hok
      cases hok
    · rw [hcaller] at hc
      cases hc
      rw [h]
      have hback := wire_Unmarshal_Marshal _ _ hm
      have hstage : utf8 (textOf (utf8 "Raccolto")) = utf8 "Raccolto" := by
        rw [textOf_utf8]
      simp only [ReadAsset, Stub.GetState, hg, Function.update_same, hback, FoodAsset.ofText,
        FoodAsset.text, toValidUTF8, hstage]
  refine ⟨hread, ?_⟩
  intro h1 h2 h3 h4 h5
  rw [hread, toValidUTF8_of_WellFormed _ h1, toValidUTF8_of_WellFormed _ h2,
    toValidUTF8_of_WellFormed _ h3, toValidUTF8_of_WellFormed _ h4,
    toValidUTF8_of_WellFormed _ h5]

theorem wire_ReadAsset_after_CreateAsset_witness :
    (asCaller emptyStub "alice").clientIdentity = .ok (utf8 "alice") ∧
    (CreateAsset (asCaller emptyStub "alice") (utf8 "a1") [0xFF] one (utf8 "kg") (utf8 "IT")
      (utf8 "producer")).1 = .ok () ∧
    ReadAsset ⟨(CreateAsset (asCaller emptyStub "alice") (utf8 "a1") [0xFF] one (utf8 "kg")
        (utf8 "IT") (utf8 "producer")).2, .ok (utf8 "bob")⟩ (utf8 "a1") =
      .ok ⟨toValidUTF8 (utf8 "a1"), toValidUTF8 [0xFF], one, toValidUTF8 (utf8 "kg"),
        toValidUTF8 (utf8 "IT"), utf8 "Raccolto", toValidUTF8 (utf8 "alice")⟩ :=
  ⟨rfl, by decide,
    (wire_ReadAsset_after_CreateAsset (asCaller emptyStub "alice") (utf8 "a1") [0xFF] one
      (utf8 "kg") (utf8 "IT") (utf8 "alice") (.ok (utf8 "bob")) rfl (by decide)).1⟩

/-- C4, as stated, fails: `"bob"`, with the role `"logistics"`, updates the live asset
`"a1"` to the stage `0xFF`, a byte that is not valid UTF-8; the call succeeds, and the
record read back carries the stage U+FFFD (`EF BF BD`), not the stage he gave. -/
theorem wire_UpdateStage_stage_replaced :
    ReadAsset (asCaller stubWithApple "bob") (utf8 "a1") =
      .ok ⟨utf8 "a1", utf8 "apple", one, utf8 "kg", utf8 "IT", utf8 "Raccolto", utf8 "alice"⟩ ∧
    (UpdateStage (asCaller stubWithApple "bob") (utf8 "a1") [0xFF] (utf8 "logistics")).1 =
      .ok () ∧
    ReadAsset ⟨(UpdateStage (asCaller stubWithApple "bob") (utf8 "a1") [0xFF]
        (utf8 "logistics")).2, .ok (utf8 "carol")⟩ (utf8 "a1") =
      .ok ⟨utf8 "a1", utf8 "apple", one, utf8 "kg", utf8 "IT", [0xEF, 0xBF, 0xBD],
        utf8 "bob"⟩ := by
  refine ⟨by decide, by decide, by decide⟩

/-- C4, amended. If `assetID` holds a readable record `r`, the role is `"producer"` or
`"logistics"`, the identity lookup yields `caller` and the store accepts the write of the
updated record, then `UpdateStage` succeeds, and `ReadAsset` on the resulting store, by
any reader, returns `r` with `CurrentStage` set to `newStage` and `Owner` to `caller`,
each with every byte that is not valid UTF-8 replaced by U+FFFD, so exactly `newStage` and
`caller` when these are well-formed UTF-8; every other field is as in `r`. -/
theorem wire_UpdateStage_then_ReadAsset (ctx : TransactionContext)
    (assetID newStage userRole : GoString) (r : FoodAsset) (caller : GoString)
    (reader : Except GoString GoString)
    (hread : ReadAsset ctx assetID = .ok r)
    (hrole : userRole = utf8 "producer" ∨ userRole = utf8 "logistics")
    (hcaller : ctx.clientIdentity = .ok caller)
    (hput : ∀ bytes, Marshal { r with CurrentStage := newStage, Owner := caller } = .ok bytes →
      ctx.stub.putFault assetID bytes = none) :
    (UpdateStage ctx assetID newStage userRole).1 = .ok () ∧
    ReadAsset ⟨(UpdateStage ctx assetID newStage userRole).2, reader⟩ assetID =
      .ok ⟨r.AssetID, r.ProductType, r.Quantity, r.Unit, r.Origin, toValidUTF8 newStage,
        toValidUTF8 caller⟩ ∧
    (WellFormed newStage → WellFormed caller →
      ReadAsset ⟨(UpdateStage ctx assetID newStage userRole).2, reader⟩ assetID =
        .ok ⟨r.AssetID, r.ProductType, r.Quantity, r.Unit, r.Origin, newStage, caller⟩) := by
  have hgate : ¬ (userRole ≠ utf8 "producer" ∧ userRole ≠ utf8 "logistics") := by
    rintro ⟨h1, h2⟩
    rcases hrole with h | h
    · exact h1 h
    · exact h2 h
  have hg : ctx.stub.getFault assetID = none := by
    rcases hg : ctx.stub.getFault assetID with _ | e
    · rfl
    · simp [ReadAsset, Stub.GetState, hg] at hread
  obtain ⟨t, ht, hr⟩ : ∃ t, SafeFoodChain.Unmarshal
      ((ctx.stub.state assetID).getD .malformed) = .ok t ∧ r = FoodAsset.ofText t := by
    rcases hs : ctx.stub.state assetID with _ | stored
    · simp [ReadAsset, Stub.GetState, hg, hs] at hread
    · simp only [ReadAsset, Stub.GetState, hg, hs] at hread
      simpa using (wire_Unmarshal_ok _ _).1 hread
  have hfin : r.Quantity.isFinite = true := by
    rw [hr]
    exact SafeFoodChain.Unmarshal_finite _ t ht
  obtain ⟨bytes, hm⟩ := wire_Marshal_of_finite
    { r with CurrentStage := newStage, Owner := caller } hfin
  have hp := hput bytes hm
  have hrun : UpdateStage ctx assetID newStage userRole =
      (.ok (), { ctx.stub with
        state := Function.update ctx.stub.state assetID (some bytes) }) := by
    simp [UpdateStage, hgate, hread, TransactionContext.GetID, hcaller, hm, Stub.PutState, hp]
  have hback := wire_Unmarshal_Marshal _ _ hm
  have hafter : ReadAsset ⟨(UpdateStage ctx assetID newStage userRole).2, reader⟩ assetID =
      .ok ⟨r.AssetID, r.ProductType, r.Quantity, r.Unit, r.Origin, toValidUTF8 newStage,
        toValidUTF8 caller⟩ := by
    rw [hrun]
    simp only [ReadAsset, Stub.GetState, hg, Function.update_same, hback]
    rw [hr]
    simp [FoodAsset.ofText, FoodAsset.text, toValidUTF8, textOf_utf8]
  refine ⟨by rw [hrun], hafter, ?_⟩
  intro h1 h2
  rw [hafter, toValidUTF8_of_WellFormed _ h1, toValidUTF8_of_WellFormed _ h2]

theorem wire_UpdateStage_then_ReadAsset_witness :
    ReadAsset (asCaller stubWithApple "bob") (utf8 "a1") =
      .ok ⟨utf8 "a1", utf8 "apple", one, utf8 "kg", utf8 "IT", utf8 "Raccolto", utf8 "alice"⟩ ∧
    (utf8 "logistics" = utf8 "producer" ∨ utf8 "logistics" = utf8 "logistics") ∧
    (asCaller stubWithApple "bob").clientIdentity = .ok (utf8 "bob") ∧
    (UpdateStage (asCaller stubWithApple "bob") (utf8 "a1") (utf8 "Shipped")
      (utf8 "logistics")).1 = .ok () ∧
    ReadAsset ⟨(UpdateStage (asCaller stubWithApple "bob") (utf8 "a1") (utf8 "Shipped")
        (utf8 "logistics")).2, .ok (utf8 "carol")⟩ (utf8 "a1") =
      .ok ⟨utf8 "a1", utf8 "apple", one, utf8 "kg", utf8 "IT", toValidUTF8 (utf8 "Shipped"),
        toValidUTF8 (utf8 "bob")⟩ :=
  have h := wire_UpdateStage_then_ReadAsset (asCaller stubWithApple "bob") (utf8 "a1")
    (utf8 "Shipped") (utf8 "logistics")
    ⟨utf8 "a1", utf8 "apple", one, utf8 "kg", utf8 "IT", utf8 "Raccolto", utf8 "alice"⟩
    (utf8 "bob") (.ok (utf8 "carol")) (by decide) (by decide) rfl (fun _ _ => rfl)
  ⟨by decide, by decide, rfl, h.1, h.2.1⟩

end Wire

namespace Wire

/-! ## Keys and ids, on byte strings -/

/-- One step keeps the key invariant: every stored value decodes to a record whose
`assetId` is the text `json.Marshal` writes for the key it is stored under. -/
theorem wire_key_step (s : Stub) (step : Step)
    (hinv : ∀ k b, s.state k = some b →
      ∃ t, SafeFoodChain.Unmarshal b = .ok t ∧ t.AssetID = textOf k) :
    ∀ k b, (invoke ⟨s, step.1⟩ step.2).2.state k = some b →
      ∃ t, SafeFoodChain.Unmarshal b = .ok t ∧ t.AssetID = textOf k := by
  obtain ⟨identity, call⟩ := step
  intro k b hb
  cases call with
  | CreateAsset id productType quantity unit origin userRole =>
    rcases wire_CreateAsset_cases ⟨s, identity⟩ id productType quantity unit origin userRole
      with ⟨e, h⟩ | ⟨-, -, clientID, bytes, -, hm, h⟩
    · simp [invoke, h] at hb
      exact hinv k b hb
    · by_cases hid : k = id
      · subst hid
        simp [invoke, h] at hb
        subst hb
        exact ⟨_, SafeFoodChain.Unmarshal_Marshal _ _ ((wire_Marshal_ok _ _).1 hm), rfl⟩
      · simp [invoke, h, Function.update, hid] at hb
        exact hinv k b hb
  | UpdateStage id newStage userRole =>
    rcases wire_UpdateStage_cases ⟨s, identity⟩ id newStage userRole with
      ⟨e, h⟩ | ⟨-, -, stored, asset, clientID, bytes, hst, hun, -, hm, h⟩
    · simp [invoke, h] at hb
      exact hinv k b hb
    · by_cases hid : k = id
      · subst hid
        simp [invoke, h] at hb
        subst hb
        obtain ⟨t0, ht0, hid0⟩ := hinv k stored hst
        obtain ⟨t, ht, hasset⟩ := (wire_Unmarshal_ok _ _).1 hun
        rw [ht0] at ht
        cases ht
        refine ⟨_, SafeFoodChain.Unmarshal_Marshal _ _ ((wire_Marshal_ok _ _).1 hm), ?_⟩
        rw [hasset]
        simp [FoodAsset.text, FoodAsset.ofText, textOf_utf8, hid0]
      · simp [invoke, h, Function.update, hid] at hb
        exact hinv k b hb
  | DeleteAsset id userRole =>
    rcases wire_DeleteAsset_cases ⟨s, identity⟩ id userRole with ⟨e, h⟩ | h
    · simp [invoke, h] at hb
      exact hinv k b hb
    · by_cases hid : k = id
      · subst hid
        simp [invoke, h] at hb
      · simp [invoke, h, Function.update, hid] at hb
        exact hinv k b hb
  | ReadAsset id =>
    simp [invoke] at hb
    exact hinv k b hb
  | AssetExists id =>
    simp [invoke] at hb
    exact hinv k b hb

/-- A history keeps the key invariant. -/
theorem wire_key_run (history : List Step) (s : Stub)
    (hinv : ∀ k b, s.state k = some b →
      ∃ t, SafeFoodChain.Unmarshal b = .ok t ∧ t.AssetID = textOf k) :
    ∀ k b, (run s history).state k = some b →
      ∃ t, SafeFoodChain.Unmarshal b = .ok t ∧ t.AssetID = textOf k := by
  induction history generalizing s with
  | nil => exact hinv
  | cons step rest ih => exact ih _ (wire_key_step s step hinv)

/-- C17, as stated, fails: after two producers have created assets under the ids `0xFF`
and `0xFE`, neither of them valid UTF-8, both keys are live, and each holds a readable
record whose `AssetID` is U+FFFD (`EF BF BD`): it is not the key, and the two live records
share it. -/
theorem wire_AssetID_differs_from_key :
    (run emptyStub illFormedHistory).Live [0xFF] ∧
    (run emptyStub illFormedHistory).Live [0xFE] ∧
    ReadAsset ⟨run emptyStub illFormedHistory, .ok (utf8 "erin")⟩ [0xFF] =
      .ok ⟨[0xEF, 0xBF, 0xBD], utf8 "apple", one, utf8 "kg", utf8 "IT", utf8 "Raccolto",
        utf8 "alice"⟩ ∧
    ReadAsset ⟨run emptyStub illFormedHistory, .ok (utf8 "erin")⟩ [0xFE] =
      .ok ⟨[0xEF, 0xBF, 0xBD], utf8 "pear", two, utf8 "t", utf8 "FR", utf8 "Raccolto",
        utf8 "bob"⟩ :=
  ⟨⟨_, rfl⟩, ⟨_, rfl⟩, by decide, by decide⟩

/-- C17, amended. After any history of calls run from a store that holds nothing, every
live key holds a readable record whose `AssetID` is that key with every byte that is not
valid UTF-8 replaced by U+FFFD; so the `AssetID` is the key itself when the key is
well-formed UTF-8, and the records of two different well-formed live keys never share an
`AssetID`. -/
theorem wire_key_id_consistency (s : Stub) (history : List Step)
    (reader : Except GoString GoString) (hempty : ∀ k, s.state k = none) :
    (∀ k, (run s history).Live k →
      ∃ r, ReadAsset ⟨run s history, reader⟩ k = .ok r ∧ r.AssetID = toValidUTF8 k) ∧
    (∀ k, WellFormed k → (run s history).Live k →
      ∃ r, ReadAsset ⟨run s history, reader⟩ k = .ok r ∧ r.AssetID = k) ∧
    (∀ k1 k2 r1 r2, WellFormed k1 → WellFormed k2 → k1 ≠ k2 →
      ReadAsset ⟨run s history, reader⟩ k1 = .ok r1 →
      ReadAsset ⟨run s history, reader⟩ k2 = .ok r2 → r1.AssetID ≠ r2.AssetID) := by
  have hinv := wire_key_run history s (fun k b hb => by simp [hempty] at hb)
  have hread : ∀ k r, ReadAsset ⟨run s history, reader⟩ k = .ok r →
      r.AssetID = toValidUTF8 k := by
    intro k r hr
    rcases hg : (run s history).getFault k with _ | e
    · rcases hs : (run s history).state k with _ | b
      · simp [ReadAsset, Stub.GetState, hg, hs] at hr
      · obtain ⟨t, ht, hid⟩ := hinv k b hs
        simp only [ReadAsset, Stub.GetState, hg, hs] at hr
        obtain ⟨t2, ht2, hr2⟩ := (wire_Unmarshal_ok _ _).1 hr
        rw [ht] at ht2
        cases ht2
        rw [hr2]
        simp [FoodAsset.ofText, toValidUTF8, hid]
    · simp [ReadAsset, Stub.GetState, hg] at hr
  have hlive : ∀ k, (run s history).Live k →
      ∃ r, ReadAsset ⟨run s history, reader⟩ k = .ok r ∧ r.AssetID = toValidUTF8 k := by
    intro k ⟨bytes, hget⟩
    have hg : (run s history).getFault k = none := by
      rcases hg : (run s history).getFault k with _ | e
      · rfl
      · simp [Stub.GetState, hg] at hget
    have hs : (run s history).state k = some bytes := by
      simpa [Stub.GetState, hg] using hget
    obtain ⟨t, ht, -⟩ := hinv k bytes hs
    have hr : ReadAsset ⟨run s history, reader⟩ k = .ok (FoodAsset.ofText t) := by
      simp only [ReadAsset, Stub.GetState, hg, hs]
      exact (wire_Unmarshal_ok _ _).2 ⟨t, ht, rfl⟩
    exact ⟨_, hr, hread k _ hr⟩
  refine ⟨hlive, ?_, ?_⟩
  · intro k hk hl
    obtain ⟨r, hr, hid⟩ := hlive k hl
    exact ⟨r, hr, by rw [hid, toValidUTF8_of_WellFormed k hk]⟩
  · intro k1 k2 r1 r2 hk1 hk2 hne h1 h2 heq
    rw [hread k1 r1 h1, hread k2 r2 h2, toValidUTF8_of_WellFormed k1 hk1,
      toValidUTF8_of_WellFormed k2 hk2] at heq
    exact hne heq

theorem wire_key_id_consistency_witness :
    (∀ k, emptyStub.state k = none) ∧ (run emptyStub illFormedHistory).Live [0xFF] ∧
    ∃ r, ReadAsset ⟨run emptyStub illFormedHistory, .ok (utf8 "erin")⟩ [0xFF] = .ok r ∧
      r.AssetID = toValidUTF8 [0xFF] :=
  ⟨fun _ => rfl, ⟨_, rfl⟩,
    (wire_key_id_consistency emptyStub illFormedHistory (.ok (utf8 "erin")) (fun _ => rfl)).1
      [0xFF] ⟨_, rfl⟩⟩

end Wire

end SafeFoodChain
